import Mathlib

/-! AppSec span tags of `httpinstr` (`tags.go`).

A shallow embedding of `internal/appsec/dyngo/instrumentation/httpinstr/tags.go`.

* Go strings (and the `[]byte` produced by `json.Marshal`, which the code only converts
  back with `string(event)`) are Lean strings.  Go orders strings bytewise; on UTF-8 text
  this is the lexicographic order of the code points, which is the order used here.
  The payload `events`, a `json.RawMessage`, is `none` for the nil slice and `some` of its
  content otherwise: `MarshalJSON` tells the two apart.
* A Go map is the list of its entries.  For a parameter the list is given in the order in
  which the `range` loop of the callee visits it; the entries of a well-formed map have
  pairwise distinct keys (`mapWF`).  A nil map result is `none`.
* `ddtrace.Span` is an interface: the functions are generic in the span state and in its
  `SetTag` method.  `log.Error` appends the rendered message to a log.
* `json.Marshal`, `ext.ManualKeep` and the order of `range` over the normalized map are
  the fields of `Externals`.  The namespace `json` holds the part of Go's `encoding/json`
  that `json.Marshal` runs on an `eventTag`, for the property on the serialized text.
-/

namespace httpinstr

/-! ## Go runtime and standard library pieces used by the file -/

/-- Go's `a < b` on strings: lexicographic comparison of the contents. -/
def strLess (a b : String) : Bool :=
  decide (a.data < b.data)

/-- Go's `a >= b` on strings, the negation of `a < b`. -/
def strGreaterEq (a b : String) : Bool :=
  !strLess a b

/-- A Go map with string keys, as the list of its entries. -/
abbrev GoMap (α : Type) := List (String × α)

/-- The keys of a map, in enumeration order. -/
def mapKeys {α : Type} (m : GoMap α) : List String :=
  m.map Prod.fst

/-- Well-formedness of a map value: no key occurs twice. -/
def mapWF {α : Type} (m : GoMap α) : Prop :=
  (mapKeys m).Nodup

/-- Go's `m[k] = v`: overwrite the entry of `k` when there is one, add one otherwise. -/
def mapAssign {α : Type} : GoMap α → String → α → GoMap α
  | [], k, v => [(k, v)]
  | (k0, v0) :: m, k, v => if k0 = k then (k, v) :: m else (k0, v0) :: mapAssign m k v

/-- Go's `v, ok := m[k]` on a possibly nil map: `none` when `ok` is false. -/
def mapLookup {α : Type} : Option (GoMap α) → String → Option α
  | none, _ => none
  | some [], _ => none
  | some ((k0, v0) :: m), k => if k0 = k then some v0 else mapLookup (some m) k

namespace strings

/-- Loop of `strings.Join`: append the separator and the next element. -/
def joinLoop (sep : String) : String → List String → String
  | acc, [] => acc
  | acc, s :: rest => joinLoop sep (acc ++ sep ++ s) rest

/-- Go's `strings.Join(elems, sep)`. -/
def Join (elems : List String) (sep : String) : String :=
  match elems with
  | [] => ""
  | [s] => s
  | s :: rest => joinLoop sep s rest

end strings

namespace sort

/-- Insertion of `x` before the first element that is greater than it. -/
def insertString (x : String) : List String → List String
  | [] => [x]
  | y :: ys => if strLess x y then x :: y :: ys else y :: insertString x ys

/-- Go's `sort.Strings(a)`: the elements of `a` in increasing order.  The standard library
sorts in place with `Less(i, j) = a[i] < a[j]`; strings that compare equal are identical,
so every sorting algorithm yields this list. -/
def Strings (a : List String) : List String :=
  a.foldr insertString []

/-- The loop of `sort.Search`, `for i < j`, run for at most `fuel` iterations;
`h := int(uint(i+j) >> 1)` is computed on 64-bit words. -/
def searchLoop (f : Nat → Bool) : Nat → Nat → Nat → Nat
  | 0, i, _ => i
  | fuel + 1, i, j =>
    if i < j then
      let h := ((i + j) % 2 ^ 64) / 2
      if !f h then searchLoop f fuel (h + 1) j else searchLoop f fuel i h
    else i

/-- Go's `sort.Search(n, f)`: binary search for the least index in `[0, n)` at which `f` is
true, `n` when there is none.  Every iteration shrinks `j - i`, so `n` iterations are
enough. -/
def Search (n : Nat) (f : Nat → Bool) : Nat :=
  searchLoop f n 0 n

/-- Go's `sort.SearchStrings(a, x)`, that is `Search(len(a), func(i) { return a[i] >= x })`.
The closure is only called at indices below `len(a)`. -/
def SearchStrings (a : List String) (x : String) : Nat :=
  Search a.length (fun i =>
    match a[i]? with
    | some s => strGreaterEq s x
    | none => true)

end sort

/-! ## The header allow-list -/

/-- The array literal of `collectedHTTPHeaders`, as declared (lines 49-69). -/
def collectedHTTPHeadersDecl : List String :=
  [ "host",
    "x-forwarded-for",
    "x-client-ip",
    "x-real-ip",
    "x-forwarded",
    "x-cluster-client-ip",
    "forwarded-for",
    "forwarded",
    "via",
    "true-client-ip",
    "content-length",
    "content-type",
    "content-encoding",
    "content-language",
    "forwarded",
    "user-agent",
    "accept",
    "accept-encoding",
    "accept-language" ]

/-- The package initializer `init`: sorts the array, as `sort.SearchStrings` requires. -/
def init (collected : List String) : List String :=
  sort.Strings collected

/-- The value of `collectedHTTPHeaders` seen by every function of the package: Go runs
`init` on the declared array before any other code of the package, and nothing writes to
the array afterwards. -/
def collectedHTTPHeaders : List String :=
  init collectedHTTPHeadersDecl

/-! ## `normalizeHTTPHeaders` -/

/-- The allow-list test of line 83:
`i := sort.SearchStrings(collectedHTTPHeaders[:], k); i < len(collectedHTTPHeaders) &&
collectedHTTPHeaders[i] == k`. -/
def isCollected (k : String) : Bool :=
  let i := sort.SearchStrings collectedHTTPHeaders k
  if h : i < collectedHTTPHeaders.length then collectedHTTPHeaders[i] == k else false

/-- One iteration of the loop of `normalizeHTTPHeaders` (lines 82-86). -/
def normalizeStep (normalized : GoMap String) (kv : String × List String) : GoMap String :=
  if isCollected kv.1 then mapAssign normalized kv.1 (strings.Join kv.2 ",") else normalized

/-- The function `normalizeHTTPHeaders` (lines 77-91); `none` is the nil map. -/
def normalizeHTTPHeaders (headers : GoMap (List String)) : Option (GoMap String) :=
  if headers.length = 0 then none
  else
    let normalized := headers.foldl normalizeStep []
    if normalized.length = 0 then none else some normalized

/-! ## Spans, the event envelope and the logger -/

/-- A value handed to `SetTag` (its parameter has type `interface{}`): the file passes
strings and booleans. -/
inductive TagValue where
  | str (s : String)
  | bool (b : Bool)
deriving DecidableEq

/-- The interface `ddtrace.Span`, of which the file uses the method `SetTag` only:
`SetTag span key value` is the span after `span.SetTag(key, value)`. -/
structure Span (σ : Type) where
  SetTag : σ → String → TagValue → σ

namespace json

/-- Go's `json.RawMessage`, a byte slice holding encoded JSON: `none` is the nil slice,
`some b` the slice with the content `b` (`some ""` is the empty slice that is not nil). -/
abbrev RawMessage := Option String

end json

/-- The local type `eventTag` of `setEventSpanTags` (lines 22-24). -/
structure eventTag where
  Triggers : json.RawMessage

/-- What the file takes from other packages and from the Go runtime.
* `jsonMarshal e` is `json.Marshal(e)` followed by `string(event)`: the text, or the
  message of the error.
* `ManualKeep` is the constant `ext.ManualKeep`.
* `rangeOrder m` is the order in which `range` visits the entries of the map `m` built
  by `normalizeHTTPHeaders`: some rearrangement of its entries. -/
structure Externals where
  jsonMarshal : eventTag → Except String String
  ManualKeep : String
  rangeOrder : GoMap String → GoMap String
  rangeOrder_perm : ∀ m, (rangeOrder m).Perm m

/-- The state a call acts on: the span, and the messages written through `log.Error`. -/
structure World (σ : Type) where
  span : σ
  log : List String

/-- The message of `log.Error(format, err)` at line 28, with `%v` rendered. -/
def serializationErrorMessage (err : String) : String :=
  "appsec: unexpected error while serializing the appsec event span tag: " ++ err

/-- The function `setEventSpanTags` (lines 19-37). -/
def setEventSpanTags {σ : Type} (S : Span σ) (x : Externals) (w : World σ)
    (events : json.RawMessage) : World σ :=
  match x.jsonMarshal (eventTag.mk events) with
  | Except.error err => World.mk w.span (w.log ++ [serializationErrorMessage err])
  | Except.ok event =>
    let span := S.SetTag w.span "_dd.appsec.json" (TagValue.str event)
    let span := S.SetTag span x.ManualKeep (TagValue.bool true)
    let span := S.SetTag span "_dd.origin" (TagValue.str "appsec")
    let span := S.SetTag span "appsec.event" (TagValue.bool true)
    World.mk span w.log

/-- One iteration of the loop of `setSpanTags` (lines 43-45). -/
def setHeaderTag {σ : Type} (S : Span σ) (span : σ) (hv : String × String) : σ :=
  S.SetTag span ("http.request.headers." ++ hv.1) (TagValue.str hv.2)

/-- The entries visited by `for h, v := range normalizeHTTPHeaders(headers)`: none for
the nil map. -/
def rangeNormalized (x : Externals) (headers : GoMap (List String)) : GoMap String :=
  match normalizeHTTPHeaders headers with
  | none => []
  | some normalized => x.rangeOrder normalized

/-- The function `setSpanTags` (lines 40-46). -/
def setSpanTags {σ : Type} (S : Span σ) (x : Externals) (w : World σ)
    (events : json.RawMessage) (remoteIP : String) (headers : GoMap (List String)) :
    World σ :=
  let w := setEventSpanTags S x w events
  let span := S.SetTag w.span "network.client.ip" (TagValue.str remoteIP)
  let span := (rangeNormalized x headers).foldl (setHeaderTag S) span
  World.mk span w.log

/-! ## Two spans -/

/-- A call of `SetTag`: its key and its value. -/
abbrev Call := String × TagValue

/-- The span that records the calls of `SetTag` made on it, oldest first. -/
def recorder : Span (List Call) :=
  Span.mk (fun calls key value => calls ++ [(key, value)])

/-- A tag store: the value of every key that has one. -/
abbrev TagStore := String → Option TagValue

/-- Modelled from the spec: the implementation of `ddtrace.Span` is not part of the file;
section 3 describes a span as "a mutable key-value tag store", on which `SetTag(key, value)`
sets the tag `key` to `value` and leaves the other tags as they are. -/
def tagStore : Span TagStore :=
  Span.mk (fun store key value => fun k => if k = key then some value else store k)

/-- The tags of the event, written by `setEventSpanTags` when serialization succeeds. -/
def eventTagKeys (x : Externals) : List String :=
  ["_dd.appsec.json", x.ManualKeep, "_dd.origin", "appsec.event"]

/-- Externals for concrete runs: serialization succeeds. -/
def sampleExternals : Externals :=
  Externals.mk (fun e => Except.ok ("triggers=" ++ e.Triggers.getD "null")) "manual.keep" id
    (fun m => List.Perm.refl m)

/-- Externals for concrete runs: serialization fails, and maps are visited backwards. -/
def failingExternals : Externals :=
  Externals.mk (fun _ => Except.error "marshal failed") "manual.keep" List.reverse
    (fun m => List.reverse_perm m)

/-! ## Definitions used to state the properties -/

instance instDecidableMapWF {α : Type} (m : GoMap α) : Decidable (mapWF m) :=
  inferInstanceAs (Decidable (mapKeys m).Nodup)

/-- The entries kept by the loop of `normalizeHTTPHeaders`, in the order of the input. -/
def retained (headers : GoMap (List String)) : GoMap String :=
  (headers.filter (fun kv => isCollected kv.1)).map (fun kv => (kv.1, strings.Join kv.2 ","))

/-- The call made by one iteration of the loop of `setSpanTags`. -/
def headerCall (hv : String × String) : Call :=
  ("http.request.headers." ++ hv.1, TagValue.str hv.2)

/-- The calls `setEventSpanTags` makes when the envelope serializes to `event`. -/
def eventCalls (x : Externals) (event : String) : List Call :=
  [("_dd.appsec.json", TagValue.str event), (x.ManualKeep, TagValue.bool true),
   ("_dd.origin", TagValue.str "appsec"), ("appsec.event", TagValue.bool true)]

/-- The calls `setEventSpanTags` adds to a recording span. -/
def eventCallsOf (x : Externals) (events : json.RawMessage) : List Call :=
  match x.jsonMarshal (eventTag.mk events) with
  | Except.error _ => []
  | Except.ok event => eventCalls x event

/-- The header calls expected for a map: one per allow-listed entry. -/
def expectedHeaderCalls (headers : GoMap (List String)) : List Call :=
  (headers.filter (fun kv => decide (kv.1 ∈ collectedHTTPHeadersDecl))).map
    (fun kv => ("http.request.headers." ++ kv.1, TagValue.str (",".intercalate kv.2)))

/-- The test of line 83 on an arbitrary array `a` in place of `collectedHTTPHeaders`. -/
def searchMember (a : List String) (k : String) : Bool :=
  let i := sort.SearchStrings a k
  if h : i < a.length then a[i] == k else false

/-- ASCII lower-casing of a string: `A`-`Z` become `a`-`z`. -/
def asciiLower (s : String) : String :=
  String.mk (s.data.map Char.toLower)

/-- The calls `cs` made one after the other on a span. -/
def replay {σ : Type} (S : Span σ) (cs : List Call) (span : σ) : σ :=
  cs.foldl (fun sp c => S.SetTag sp c.1 c.2) span

/-- The calls of `setSpanTags`, in the order in which they are made. -/
def callsOf (x : Externals) (events : json.RawMessage) (remoteIP : String)
    (headers : GoMap (List String)) : List Call :=
  eventCallsOf x events ++ [("network.client.ip", TagValue.str remoteIP)]
    ++ (rangeNormalized x headers).map headerCall

/-- The tag store without any tag. -/
def emptyStore : TagStore :=
  fun _ => none

/-- Externals for concrete runs: as `sampleExternals`, with maps visited backwards. -/
def reversedExternals : Externals :=
  Externals.mk sampleExternals.jsonMarshal sampleExternals.ManualKeep List.reverse
    (fun m => List.reverse_perm m)

/-! ## Go's `encoding/json`, as far as `json.Marshal(eventTag{Triggers: events})` uses it

The standard library is not part of the file; these definitions follow its source
(`scanner.go`, `indent.go`, `stream.go`, `encode.go`).  The scanner reads bytes; every
byte of a character outside ASCII is at least `0x80` and is treated alike by every state,
so the model reads characters. -/

namespace json

/-- The values kept on the parse stack of the scanner. -/
inductive ParseState where
  | parseObjectKey
  | parseObjectValue
  | parseArrayValue
deriving DecidableEq

/-- The state functions of the scanner, the possible values of its field `step`. -/
inductive StepFn where
  | stateBeginValueOrEmpty
  | stateBeginValue
  | stateBeginStringOrEmpty
  | stateBeginString
  | stateEndValue
  | stateEndTop
  | stateInString
  | stateInStringEsc
  | stateInStringEscU
  | stateInStringEscU1
  | stateInStringEscU12
  | stateInStringEscU123
  | stateNeg
  | state1
  | state0
  | stateDot
  | stateDot0
  | stateE
  | stateESign
  | stateE0
  | stateT
  | stateTr
  | stateTru
  | stateF
  | stateFa
  | stateFal
  | stateFals
  | stateN
  | stateNu
  | stateNul
  | stateError
deriving DecidableEq

/-- The type `scanner`: the next state function, whether the top-level value has ended,
the parse stack (innermost first) and the message of the error met, if any. -/
structure scanner where
  step : StepFn
  endTop : Bool
  parseState : List ParseState
  err : Option String

/-- The scan code `scanContinue`. -/
abbrev scanContinue : Nat := 0

/-- The scan code `scanBeginLiteral`. -/
abbrev scanBeginLiteral : Nat := 1

/-- The scan code `scanBeginObject`. -/
abbrev scanBeginObject : Nat := 2

/-- The scan code `scanObjectKey`. -/
abbrev scanObjectKey : Nat := 3

/-- The scan code `scanObjectValue`. -/
abbrev scanObjectValue : Nat := 4

/-- The scan code `scanEndObject`. -/
abbrev scanEndObject : Nat := 5

/-- The scan code `scanBeginArray`. -/
abbrev scanBeginArray : Nat := 6

/-- The scan code `scanArrayValue`. -/
abbrev scanArrayValue : Nat := 7

/-- The scan code `scanEndArray`. -/
abbrev scanEndArray : Nat := 8

/-- The scan code `scanSkipSpace`, the last of the codes that continue. -/
abbrev scanSkipSpace : Nat := 9

/-- The scan code `scanEnd`, the first of the codes that stop. -/
abbrev scanEnd : Nat := 10

/-- The scan code `scanError`. -/
abbrev scanError : Nat := 11

/-- The constant `maxNestingDepth`. -/
abbrev maxNestingDepth : Nat := 10000

/-- A scanner after `reset`, as `newScanner` returns it. -/
def newScanner : scanner :=
  scanner.mk StepFn.stateBeginValue false [] none

/-- The scanner `s` with its field `step` set. -/
def setStep (s : scanner) (f : StepFn) : scanner :=
  scanner.mk f s.endTop s.parseState s.err

/-- The function `isSpace`. -/
def isSpace (c : Char) : Bool :=
  c == ' ' || c == '\t' || c == '\r' || c == '\n'

/-- Whether `c` is a decimal digit, `'0' <= c && c <= '9'`. -/
def isDigit (c : Char) : Bool :=
  decide ('0' ≤ c) && decide (c ≤ '9')

/-- Whether `c` is a hexadecimal digit, as tested by the `stateInStringEscU` functions. -/
def isHexDigit (c : Char) : Bool :=
  isDigit c || (decide ('a' ≤ c) && decide (c ≤ 'f')) || (decide ('A' ≤ c) && decide (c ≤ 'F'))

/-- The digit `lowerhex[n]` of `strconv`, for `n` below 16. -/
def lowerhex (n : Nat) : Char :=
  "0123456789abcdef".data.getD n '0'

/-- The first byte of the UTF-8 encoding of `c`: the byte the scanner is reading when it
reports an error at the character `c`. -/
def firstByte (c : Char) : Nat :=
  if c.toNat < 0x80 then c.toNat
  else if c.toNat < 0x800 then 0xC0 + c.toNat / 0x40
  else if c.toNat < 0x10000 then 0xE0 + c.toNat / 0x1000
  else 0xF0 + c.toNat / 0x40000

/-- The text of `strconv.Quote(string(b))` between its quotation marks, for a byte `b`
other than the double quote: a backslash is doubled, printable characters (`0x20`-`0x7e`,
and `0xa1`-`0xff` except `0xad`) stand for themselves, the control characters have their
letter escape or `\x` and two digits, the other values `\u00` and two digits. -/
def quoteByte (b : Nat) : String :=
  if b = 0x5c then "\\\\"
  else if 0x20 ≤ b ∧ b < 0x7f then String.singleton (Char.ofNat b)
  else if b = 7 then "\\a"
  else if b = 8 then "\\b"
  else if b = 12 then "\\f"
  else if b = 10 then "\\n"
  else if b = 13 then "\\r"
  else if b = 9 then "\\t"
  else if b = 11 then "\\v"
  else if b < 0x20 ∨ b = 0x7f then
    "\\x" ++ String.singleton (lowerhex (b / 16)) ++ String.singleton (lowerhex (b % 16))
  else if 0xa1 ≤ b ∧ b ≠ 0xad then String.singleton (Char.ofNat b)
  else "\\u00" ++ String.singleton (lowerhex (b / 16)) ++ String.singleton (lowerhex (b % 16))

/-- The function `quoteChar`, applied to the byte at which the scanner stops. -/
def quoteChar (c : Char) : String :=
  if firstByte c = 0x27 then "'\\''"
  else if firstByte c = 0x22 then "'\"'"
  else "'" ++ quoteByte (firstByte c) ++ "'"

/-- The method `error`: record the error met at `c` and stop. -/
def scanner.error (s : scanner) (c : Char) (context : String) : scanner × Nat :=
  (scanner.mk StepFn.stateError s.endTop s.parseState
    (some ("invalid character " ++ quoteChar c ++ " " ++ context)), scanError)

/-- The method `pushParseState`. -/
def scanner.pushParseState (s : scanner) (c : Char) (newParseState : ParseState)
    (successState : Nat) : scanner × Nat :=
  let s1 := scanner.mk s.step s.endTop (newParseState :: s.parseState) s.err
  if s1.parseState.length ≤ maxNestingDepth then (s1, successState)
  else s1.error c "exceeded max depth"

/-- The method `popParseState`. -/
def scanner.popParseState (s : scanner) : scanner :=
  let rest := s.parseState.tail
  if rest.length = 0 then scanner.mk StepFn.stateEndTop true rest s.err
  else scanner.mk StepFn.stateEndValue s.endTop rest s.err

/-- The state function `stateEndTop`: a character that is not a space is an error,
reported at the next call. -/
def stateEndTop (s : scanner) (c : Char) : scanner × Nat :=
  if !isSpace c then ((s.error c "after top-level value").1, scanEnd) else (s, scanEnd)

/-- The state function `stateEndValue`. -/
def stateEndValue (s : scanner) (c : Char) : scanner × Nat :=
  match s.parseState with
  | [] => stateEndTop (scanner.mk StepFn.stateEndTop true [] s.err) c
  | ps :: rest =>
    if isSpace c then (setStep s StepFn.stateEndValue, scanSkipSpace)
    else
      match ps with
      | ParseState.parseObjectKey =>
        if c = ':' then
          (scanner.mk StepFn.stateBeginValue s.endTop (ParseState.parseObjectValue :: rest)
            s.err, scanObjectKey)
        else s.error c "after object key"
      | ParseState.parseObjectValue =>
        if c = ',' then
          (scanner.mk StepFn.stateBeginString s.endTop (ParseState.parseObjectKey :: rest)
            s.err, scanObjectValue)
        else if c = '\x7d' then (s.popParseState, scanEndObject)
        else s.error c "after object key:value pair"
      | ParseState.parseArrayValue =>
        if c = ',' then (setStep s StepFn.stateBeginValue, scanArrayValue)
        else if c = ']' then (s.popParseState, scanEndArray)
        else s.error c "after array element"

/-- The state function `stateBeginValue`. -/
def stateBeginValue (s : scanner) (c : Char) : scanner × Nat :=
  if isSpace c then (s, scanSkipSpace)
  else if c = '\x7b' then
    (setStep s StepFn.stateBeginStringOrEmpty).pushParseState c ParseState.parseObjectKey
      scanBeginObject
  else if c = '[' then
    (setStep s StepFn.stateBeginValueOrEmpty).pushParseState c ParseState.parseArrayValue
      scanBeginArray
  else if c = '"' then (setStep s StepFn.stateInString, scanBeginLiteral)
  else if c = '-' then (setStep s StepFn.stateNeg, scanBeginLiteral)
  else if c = '0' then (setStep s StepFn.state0, scanBeginLiteral)
  else if c = 't' then (setStep s StepFn.stateT, scanBeginLiteral)
  else if c = 'f' then (setStep s StepFn.stateF, scanBeginLiteral)
  else if c = 'n' then (setStep s StepFn.stateN, scanBeginLiteral)
  else if decide ('1' ≤ c) && decide (c ≤ '9') then (setStep s StepFn.state1, scanBeginLiteral)
  else s.error c "looking for beginning of value"

/-- The state function `stateBeginValueOrEmpty`. -/
def stateBeginValueOrEmpty (s : scanner) (c : Char) : scanner × Nat :=
  if isSpace c then (s, scanSkipSpace)
  else if c = ']' then stateEndValue s c
  else stateBeginValue s c

/-- The state function `stateBeginString`. -/
def stateBeginString (s : scanner) (c : Char) : scanner × Nat :=
  if isSpace c then (s, scanSkipSpace)
  else if c = '"' then (setStep s StepFn.stateInString, scanBeginLiteral)
  else s.error c "looking for beginning of object key string"

/-- The state function `stateBeginStringOrEmpty`. -/
def stateBeginStringOrEmpty (s : scanner) (c : Char) : scanner × Nat :=
  if isSpace c then (s, scanSkipSpace)
  else if c = '\x7d' then
    stateEndValue (scanner.mk s.step s.endTop (ParseState.parseObjectValue :: s.parseState.tail)
      s.err) c
  else stateBeginString s c

/-- The state function `stateInString`. -/
def stateInString (s : scanner) (c : Char) : scanner × Nat :=
  if c = '"' then (setStep s StepFn.stateEndValue, scanContinue)
  else if c = '\\' then (setStep s StepFn.stateInStringEsc, scanContinue)
  else if c < ' ' then s.error c "in string literal"
  else (s, scanContinue)

/-- The state function `stateInStringEsc`. -/
def stateInStringEsc (s : scanner) (c : Char) : scanner × Nat :=
  if c = 'b' ∨ c = 'f' ∨ c = 'n' ∨ c = 'r' ∨ c = 't' ∨ c = '\\' ∨ c = '/' ∨ c = '"' then
    (setStep s StepFn.stateInString, scanContinue)
  else if c = 'u' then (setStep s StepFn.stateInStringEscU, scanContinue)
  else s.error c "in string escape code"

/-- The state functions `stateInStringEscU`, `stateInStringEscU1`, `stateInStringEscU12`
and `stateInStringEscU123`, which differ in the state that follows a hexadecimal digit. -/
def stateInStringEscHex (next : StepFn) (s : scanner) (c : Char) : scanner × Nat :=
  if isHexDigit c then (setStep s next, scanContinue)
  else s.error c "in \\u hexadecimal character escape"

/-- The state function `stateNeg`. -/
def stateNeg (s : scanner) (c : Char) : scanner × Nat :=
  if c = '0' then (setStep s StepFn.state0, scanContinue)
  else if decide ('1' ≤ c) && decide (c ≤ '9') then (setStep s StepFn.state1, scanContinue)
  else s.error c "in numeric literal"

/-- The state function `state0`. -/
def state0 (s : scanner) (c : Char) : scanner × Nat :=
  if c = '.' then (setStep s StepFn.stateDot, scanContinue)
  else if c = 'e' ∨ c = 'E' then (setStep s StepFn.stateE, scanContinue)
  else stateEndValue s c

/-- The state function `state1`. -/
def state1 (s : scanner) (c : Char) : scanner × Nat :=
  if isDigit c then (setStep s StepFn.state1, scanContinue)
  else state0 s c

/-- The state function `stateDot`. -/
def stateDot (s : scanner) (c : Char) : scanner × Nat :=
  if isDigit c then (setStep s StepFn.stateDot0, scanContinue)
  else s.error c "after decimal point in numeric literal"

/-- The state function `stateDot0`. -/
def stateDot0 (s : scanner) (c : Char) : scanner × Nat :=
  if isDigit c then (s, scanContinue)
  else if c = 'e' ∨ c = 'E' then (setStep s StepFn.stateE, scanContinue)
  else stateEndValue s c

/-- The state function `stateESign`. -/
def stateESign (s : scanner) (c : Char) : scanner × Nat :=
  if isDigit c then (setStep s StepFn.stateE0, scanContinue)
  else s.error c "in exponent of numeric literal"

/-- The state function `stateE`. -/
def stateE (s : scanner) (c : Char) : scanner × Nat :=
  if c = '+' ∨ c = '-' then (setStep s StepFn.stateESign, scanContinue)
  else stateESign s c

/-- The state function `stateE0`. -/
def stateE0 (s : scanner) (c : Char) : scanner × Nat :=
  if isDigit c then (s, scanContinue)
  else stateEndValue s c

/-- The state functions inside the literals `true`, `false` and `null` that expect the
character `want` and go on to the state `next`. -/
def stateLiteral (want : Char) (next : StepFn) (context : String) (s : scanner)
    (c : Char) : scanner × Nat :=
  if c = want then (setStep s next, scanContinue)
  else s.error c context

/-- The call `s.step(s, c)`: the state function held by the scanner, applied. -/
def scanner.run (s : scanner) (c : Char) : scanner × Nat :=
  match s.step with
  | StepFn.stateBeginValueOrEmpty => stateBeginValueOrEmpty s c
  | StepFn.stateBeginValue => stateBeginValue s c
  | StepFn.stateBeginStringOrEmpty => stateBeginStringOrEmpty s c
  | StepFn.stateBeginString => stateBeginString s c
  | StepFn.stateEndValue => stateEndValue s c
  | StepFn.stateEndTop => stateEndTop s c
  | StepFn.stateInString => stateInString s c
  | StepFn.stateInStringEsc => stateInStringEsc s c
  | StepFn.stateInStringEscU => stateInStringEscHex StepFn.stateInStringEscU1 s c
  | StepFn.stateInStringEscU1 => stateInStringEscHex StepFn.stateInStringEscU12 s c
  | StepFn.stateInStringEscU12 => stateInStringEscHex StepFn.stateInStringEscU123 s c
  | StepFn.stateInStringEscU123 => stateInStringEscHex StepFn.stateInString s c
  | StepFn.stateNeg => stateNeg s c
  | StepFn.state1 => state1 s c
  | StepFn.state0 => state0 s c
  | StepFn.stateDot => stateDot s c
  | StepFn.stateDot0 => stateDot0 s c
  | StepFn.stateE => stateE s c
  | StepFn.stateESign => stateESign s c
  | StepFn.stateE0 => stateE0 s c
  | StepFn.stateT => stateLiteral 'r' StepFn.stateTr "in literal true (expecting 'r')" s c
  | StepFn.stateTr => stateLiteral 'u' StepFn.stateTru "in literal true (expecting 'u')" s c
  | StepFn.stateTru => stateLiteral 'e' StepFn.stateEndValue "in literal true (expecting 'e')" s c
  | StepFn.stateF => stateLiteral 'a' StepFn.stateFa "in literal false (expecting 'a')" s c
  | StepFn.stateFa => stateLiteral 'l' StepFn.stateFal "in literal false (expecting 'l')" s c
  | StepFn.stateFal => stateLiteral 's' StepFn.stateFals "in literal false (expecting 's')" s c
  | StepFn.stateFals =>
    stateLiteral 'e' StepFn.stateEndValue "in literal false (expecting 'e')" s c
  | StepFn.stateN => stateLiteral 'u' StepFn.stateNu "in literal null (expecting 'u')" s c
  | StepFn.stateNu => stateLiteral 'l' StepFn.stateNul "in literal null (expecting 'l')" s c
  | StepFn.stateNul => stateLiteral 'l' StepFn.stateEndValue "in literal null (expecting 'l')" s c
  | StepFn.stateError => (s, scanError)

/-- The method `eof`: the scan code at the end of the input. -/
def scanner.eof (s : scanner) : scanner × Nat :=
  if s.err.isSome then (s, scanError)
  else if s.endTop then (s, scanEnd)
  else
    let s1 := (s.run ' ').1
    if s1.endTop then (s1, scanEnd)
    else if s1.err.isNone then
      (scanner.mk s1.step s1.endTop s1.parseState (some "unexpected end of JSON input"),
        scanError)
    else (s1, scanError)

/-- The text `compact` writes in place of `c` when `escape` is set: a backslash, `u` and
the four hexadecimal digits of the code point, for `<`, `>`, `&`, U+2028 and U+2029. -/
def htmlEscape (c : Char) : Option (List Char) :=
  if c = '<' then some "\\u003c".data
  else if c = '>' then some "\\u003e".data
  else if c = '&' then some "\\u0026".data
  else if c = Char.ofNat 0x2028 then some "\\u2028".data
  else if c = Char.ofNat 0x2029 then some "\\u2029".data
  else none

/-- The loop of `compact(dst, src, true)`: `dst` receives the escape of `c`, or `c` itself
unless the scanner answers `scanSkipSpace` or more; the loop stops at `scanError`. -/
def compactLoop : scanner → List Char → List Char → scanner × List Char
  | s, [], dst => (s, dst)
  | s, c :: src, dst =>
    let dst1 := match htmlEscape c with
      | some e => dst ++ e
      | none => dst
    if scanSkipSpace ≤ (s.run c).2 then
      if (s.run c).2 = scanError then ((s.run c).1, dst1)
      else compactLoop (s.run c).1 src dst1
    else
      compactLoop (s.run c).1 src (if (htmlEscape c).isSome then dst1 else dst1 ++ [c])

/-- The function `compact(dst, src, true)` on an empty buffer: the compacted text, or the
message of the error. -/
def compact (src : String) : Except String String :=
  let r := compactLoop newScanner src.data []
  if (r.1.eof).2 = scanError then Except.error ((r.1.eof).1.err.getD "")
  else Except.ok (String.mk r.2)

/-- The loop of `checkValid`: it stops at the first `scanError`. -/
def checkValidLoop : scanner → List Char → scanner
  | s, [] => s
  | s, c :: data => if (s.run c).2 = scanError then (s.run c).1 else checkValidLoop (s.run c).1 data

/-- The function `json.Valid`: whether `data` is syntactically valid JSON. -/
def Valid (data : String) : Bool :=
  ((checkValidLoop newScanner data.data).eof).2 != scanError

/-- The method `RawMessage.MarshalJSON`: `null` for the nil slice, the message itself
otherwise. -/
def RawMessage.MarshalJSON (m : RawMessage) : String :=
  match m with
  | none => "null"
  | some b => b

/-- The call `json.Marshal(eventTag{Triggers: events})` followed by `string(event)`: the
encoder writes the object with its field `triggers`, whose value is the output of
`MarshalJSON` passed through `compact` with HTML escaping. -/
def Marshal (e : eventTag) : Except String String :=
  match compact (RawMessage.MarshalJSON e.Triggers) with
  | Except.error err =>
    Except.error ("json: error calling MarshalJSON for type json.RawMessage: " ++ err)
  | Except.ok text => Except.ok ("\x7b\"triggers\":" ++ text ++ "\x7d")

end json

/-- Externals with Go's `json.Marshal`. -/
def goExternals : Externals :=
  Externals.mk json.Marshal "manual.keep" id (fun m => List.Perm.refl m)

namespace json

/-- The invariant of the scanner: the state `stateError` is entered with an error. -/
def scanner.Inv (s : scanner) : Prop :=
  s.step = StepFn.stateError → s.err.isSome = true

/-- What a call `s.step(s, c)` with the result `r` guarantees: an error is kept; a
character that is not a space is skipped (`scanSkipSpace` or more) only with an error; the
code `scanError` comes with an error; the invariant is kept. -/
def StepOK (s : scanner) (c : Char) (r : scanner × Nat) : Prop :=
  (s.err.isSome = true → r.1.err.isSome = true) ∧
  (isSpace c = false → scanSkipSpace ≤ r.2 → r.1.err.isSome = true) ∧
  (r.2 = scanError → r.1.err.isSome = true) ∧
  r.1.Inv

/-- Where a position of a JSON text lies: outside the string literals, inside one, or
inside one right after a backslash. -/
inductive StringMode where
  | outside
  | inside
  | escaped
deriving DecidableEq

/-- The position after the character `c`: a double quote opens and closes a string
literal, a backslash inside one protects the next character. -/
def StringMode.next : StringMode → Char → StringMode
  | StringMode.outside, c => if c = '"' then StringMode.inside else StringMode.outside
  | StringMode.inside, c =>
    if c = '"' then StringMode.outside
    else if c = '\\' then StringMode.escaped
    else StringMode.inside
  | StringMode.escaped, _ => StringMode.inside

/-- The compact form of a JSON text read from the position `m`: the space characters
outside the string literals are removed, the characters `<`, `>`, `&`, U+2028 and U+2029
are replaced by their escapes, every other character is kept. -/
def compactForm : StringMode → List Char → List Char
  | _, [] => []
  | m, c :: src =>
    (if m = StringMode.outside ∧ isSpace c = true then []
     else
      match htmlEscape c with
      | some e => e
      | none => [c]) ++ compactForm (m.next c) src

/-- The position at which the scanner stands when its next state function is `f`. -/
def stepMode : StepFn → StringMode
  | StepFn.stateInString => StringMode.inside
  | StepFn.stateInStringEscU => StringMode.inside
  | StepFn.stateInStringEscU1 => StringMode.inside
  | StepFn.stateInStringEscU12 => StringMode.inside
  | StepFn.stateInStringEscU123 => StringMode.inside
  | StepFn.stateInStringEsc => StringMode.escaped
  | _ => StringMode.outside

/-- What a call `s.step(s, c)` at the position `m` with the result `r` guarantees when it
leaves no error: the scanner follows the position, and the character is skipped exactly
when it is a space outside the string literals. -/
def ModeOK (m : StringMode) (c : Char) (r : scanner × Nat) : Prop :=
  r.1.err.isSome = false →
    stepMode r.1.step = m.next c ∧
    (scanSkipSpace ≤ r.2 ↔ (m = StringMode.outside ∧ isSpace c = true))

/-- The payload of `n` arrays nested in one another. -/
def nestedArrays (n : Nat) : String :=
  String.mk (List.replicate n '[' ++ List.replicate n ']')

/-- The scanner inside `k` arrays, before an element. -/
def insideArrays (k : Nat) : scanner :=
  scanner.mk StepFn.stateBeginValueOrEmpty false
    (List.replicate k ParseState.parseArrayValue) none

end json

/-! ## The order of strings, `sort.Strings` and `sort.Search` -/

theorem strLess_iff (a b : String) : strLess a b = true ↔ a < b := by
  unfold strLess
  rw [decide_eq_true_iff]
  exact String.lt_iff_toList_lt.symm

theorem strLess_eq_false_iff (a b : String) : strLess a b = false ↔ b ≤ a := by
  rw [← not_lt, ← strLess_iff]
  cases strLess a b <;> simp

theorem strGreaterEq_iff (a b : String) : strGreaterEq a b = true ↔ b ≤ a := by
  unfold strGreaterEq
  rw [← strLess_eq_false_iff]
  cases strLess a b <;> simp

theorem insertString_perm (x : String) (l : List String) :
    (sort.insertString x l).Perm (x :: l) := by
  induction l with
  | nil => exact List.Perm.refl _
  | cons y ys ih =>
    unfold sort.insertString
    split
    · exact List.Perm.refl _
    · exact (List.Perm.cons y ih).trans (List.Perm.swap x y ys)

theorem sortStrings_perm (a : List String) : (sort.Strings a).Perm a := by
  induction a with
  | nil => exact List.Perm.refl _
  | cons x xs ih =>
    show (sort.insertString x (sort.Strings xs)).Perm (x :: xs)
    exact (insertString_perm x _).trans (List.Perm.cons x ih)

theorem insertString_sorted (x : String) (l : List String)
    (hl : l.Pairwise (fun a b => a ≤ b)) :
    (sort.insertString x l).Pairwise (fun a b => a ≤ b) := by
  induction l with
  | nil => simp [sort.insertString]
  | cons y ys ih =>
    have hy := List.pairwise_cons.1 hl
    unfold sort.insertString
    split
    · rename_i hlt
      have hxy : x < y := (strLess_iff x y).1 hlt
      refine List.pairwise_cons.2 ⟨?_, hl⟩
      intro z hz
      rcases List.mem_cons.1 hz with rfl | hz
      · exact le_of_lt hxy
      · exact le_trans (le_of_lt hxy) (hy.1 z hz)
    · rename_i hlt
      have hyx : y ≤ x := (strLess_eq_false_iff x y).1 (by simpa using hlt)
      refine List.pairwise_cons.2 ⟨?_, ih hy.2⟩
      intro z hz
      rcases List.mem_cons.1 ((insertString_perm x ys).subset hz) with rfl | hz
      · exact hyx
      · exact hy.1 z hz

theorem sortStrings_sorted (a : List String) :
    (sort.Strings a).Pairwise (fun a b => a ≤ b) := by
  induction a with
  | nil => exact List.Pairwise.nil
  | cons x xs ih => exact insertString_sorted x _ ih

/-- The invariant of the loop of `sort.Search`: with enough fuel it ends at the least
index of `[0, n)` where the monotone predicate holds. -/
theorem searchLoop_spec (f : Nat → Bool) (n : Nat) (hn : n < 2 ^ 63)
    (hmono : ∀ a b, a ≤ b → b < n → f a = true → f b = true) :
    ∀ fuel i j, i ≤ j → j ≤ n → j - i ≤ fuel →
      (∀ m, m < i → f m = false) → (∀ m, j ≤ m → m < n → f m = true) →
      (sort.searchLoop f fuel i j ≤ n ∧
       (∀ m, m < sort.searchLoop f fuel i j → f m = false) ∧
       (∀ m, sort.searchLoop f fuel i j ≤ m → m < n → f m = true)) := by
  intro fuel
  induction fuel with
  | zero =>
    intro i j hij hjn hfuel hlo hhi
    have hji : j = i := by omega
    subst hji
    exact ⟨hjn, hlo, hhi⟩
  | succ fuel ih =>
    intro i j hij hjn hfuel hlo hhi
    unfold sort.searchLoop
    by_cases hlt : i < j
    · have hmod : (i + j) % 2 ^ 64 = i + j := Nat.mod_eq_of_lt (by omega)
      have hh1 : i ≤ (i + j) / 2 := by omega
      have hh2 : (i + j) / 2 < j := by omega
      simp only [hlt, if_true, hmod]
      cases hf : f ((i + j) / 2) with
      | false =>
        simp only [Bool.not_false, if_true]
        apply ih ((i + j) / 2 + 1) j (by omega) hjn (by omega) _ hhi
        intro m hm
        cases hfm : f m with
        | false => rfl
        | true =>
          have := hmono m ((i + j) / 2) (by omega) (by omega) hfm
          rw [hf] at this
          exact this.symm
      | true =>
        simp only [Bool.not_true, Bool.false_eq_true, if_false]
        apply ih i ((i + j) / 2) hh1 (by omega) (by omega) hlo
        intro m hm hmn
        exact hmono ((i + j) / 2) m hm hmn hf
    · have hji : j = i := by omega
      subst hji
      simp only [hlt, if_false]
      exact ⟨hjn, hlo, hhi⟩

/-- On a sorted list the index found by `sort.SearchStrings` is in range, and the guarded
comparison at that index decides membership. -/
theorem searchStrings_mem (a : List String) (x : String) (hn : a.length < 2 ^ 63)
    (hs : a.Pairwise (fun p q => p ≤ q)) :
    sort.SearchStrings a x ≤ a.length ∧
    ((∃ h : sort.SearchStrings a x < a.length, a[sort.SearchStrings a x] = x) ↔ x ∈ a) := by
  have hget : ∀ p q (hp : p < a.length) (hq : q < a.length), p ≤ q → a[p] ≤ a[q] := by
    intro p q hp hq hpq
    rcases Nat.lt_or_eq_of_le hpq with hlt | rfl
    · exact (List.pairwise_iff_getElem.1 hs) p q hp hq hlt
    · exact le_refl _
  have hmono : ∀ p q, p ≤ q → q < a.length →
      (match a[p]? with | some s => strGreaterEq s x | none => true) = true →
      (match a[q]? with | some s => strGreaterEq s x | none => true) = true := by
    intro p q hpq hq hp
    have hp' : p < a.length := by omega
    simp only [List.getElem?_eq_getElem hp', List.getElem?_eq_getElem hq,
      strGreaterEq_iff] at hp ⊢
    exact le_trans hp (hget p q hp' hq hpq)
  have key := searchLoop_spec _ a.length hn hmono a.length 0 a.length (Nat.zero_le _)
    (le_refl _) (by omega) (by intro m hm; omega) (by intro m h1 h2; omega)
  have hr : sort.SearchStrings a x = sort.searchLoop (fun i =>
      match a[i]? with | some s => strGreaterEq s x | none => true) a.length 0 a.length := rfl
  rw [← hr] at key
  obtain ⟨hle, hlo, hhi⟩ := key
  refine ⟨hle, ?_, ?_⟩
  · rintro ⟨h, he⟩
    exact he ▸ List.getElem_mem h
  · intro hx
    obtain ⟨m, hm, hmx⟩ := List.getElem_of_mem hx
    have hrm : sort.SearchStrings a x ≤ m := by
      by_contra hcon
      have := hlo m (by omega)
      simp only [List.getElem?_eq_getElem hm, hmx] at this
      have h2 : strGreaterEq x x = true := (strGreaterEq_iff x x).2 (le_refl _)
      rw [this] at h2
      exact Bool.noConfusion h2
    have hlt : sort.SearchStrings a x < a.length := by omega
    refine ⟨hlt, ?_⟩
    have h1 := hhi _ (le_refl _) hlt
    simp only [List.getElem?_eq_getElem hlt, strGreaterEq_iff] at h1
    have h2 := hget _ m hlt hm hrm
    rw [hmx] at h2
    exact le_antisymm h2 h1

theorem collectedHTTPHeaders_mem (k : String) :
    k ∈ collectedHTTPHeaders ↔ k ∈ collectedHTTPHeadersDecl :=
  (sortStrings_perm collectedHTTPHeadersDecl).mem_iff

theorem collectedHTTPHeaders_length : collectedHTTPHeaders.length = 19 := by
  decide

/-- The test of line 83 is membership in the declared list of names. -/
theorem isCollected_iff (k : String) :
    isCollected k = true ↔ k ∈ collectedHTTPHeadersDecl := by
  have h := searchStrings_mem collectedHTTPHeaders k
    (by rw [collectedHTTPHeaders_length]; norm_num)
    (sortStrings_sorted collectedHTTPHeadersDecl)
  rw [← collectedHTTPHeaders_mem, ← h.2]
  unfold isCollected
  constructor
  · intro hc
    by_cases hlt : sort.SearchStrings collectedHTTPHeaders k < collectedHTTPHeaders.length
    · simp only [hlt, dite_true, beq_iff_eq] at hc
      exact ⟨hlt, hc⟩
    · simp only [hlt, dite_false] at hc
      exact Bool.noConfusion hc
  · rintro ⟨hlt, he⟩
    simp only [hlt, dite_true, beq_iff_eq]
    exact he

/-- With enough fuel the loop of `sort.Search` has ended: more fuel changes nothing. -/
theorem searchLoop_fuel (f : Nat → Bool) :
    ∀ fuel fuel2 i j, j < 2 ^ 63 → j - i ≤ fuel → j - i ≤ fuel2 →
      sort.searchLoop f fuel i j = sort.searchLoop f fuel2 i j := by
  intro fuel
  induction fuel with
  | zero =>
    intro fuel2 i j _ h1 _
    have hij : ¬ i < j := by omega
    cases fuel2 with
    | zero => rfl
    | succ g => simp [sort.searchLoop, hij]
  | succ fuel ih =>
    intro fuel2 i j hj h1 h2
    cases fuel2 with
    | zero =>
      have hij : ¬ i < j := by omega
      simp [sort.searchLoop, hij]
    | succ g =>
      unfold sort.searchLoop
      by_cases hlt : i < j
      · have hmod : (i + j) % 2 ^ 64 = i + j := Nat.mod_eq_of_lt (by omega)
        simp only [hlt, if_true, hmod]
        cases f ((i + j) / 2) with
        | false =>
          simp only [Bool.not_false, if_true]
          exact ih g _ _ hj (by omega) (by omega)
        | true =>
          simp only [Bool.not_true, Bool.false_eq_true, if_false]
          exact ih g _ _ (by omega) (by omega) (by omega)
      · simp only [hlt, if_false]

/-! ## Maps -/

theorem mem_mapKeys_mapAssign {α : Type} (m : GoMap α) (k : String) (v : α) (q : String) :
    q ∈ mapKeys (mapAssign m k v) ↔ q = k ∨ q ∈ mapKeys m := by
  induction m with
  | nil => simp [mapAssign, mapKeys]
  | cons e m ih =>
    obtain ⟨k0, v0⟩ := e
    unfold mapAssign
    by_cases hk : k0 = k
    · subst hk
      simp [mapKeys]
    · simp only [hk, if_false]
      simp only [mapKeys, List.map_cons, List.mem_cons] at ih ⊢
      rw [ih]
      tauto

theorem mapAssign_append {α : Type} (m : GoMap α) (k : String) (v : α)
    (hk : k ∉ mapKeys m) : mapAssign m k v = m ++ [(k, v)] := by
  induction m with
  | nil => rfl
  | cons e m ih =>
    obtain ⟨k0, v0⟩ := e
    simp only [mapKeys, List.map_cons, List.mem_cons, not_or] at hk
    have hne : ¬ k0 = k := fun h => hk.1 h.symm
    unfold mapAssign
    simp only [hne, if_false, List.cons_append]
    rw [ih hk.2]

theorem mapLookup_isSome_iff {α : Type} (m : GoMap α) (k : String) :
    (mapLookup (some m) k).isSome = true ↔ k ∈ mapKeys m := by
  induction m with
  | nil => simp [mapLookup, mapKeys]
  | cons e m ih =>
    obtain ⟨k0, v0⟩ := e
    unfold mapLookup
    by_cases hk : k0 = k
    · subst hk
      simp [mapKeys]
    · simp only [hk, if_false, mapKeys, List.map_cons, List.mem_cons]
      rw [ih]
      constructor
      · intro h
        exact Or.inr h
      · rintro (h | h)
        · exact absurd h.symm hk
        · exact h

theorem mapLookup_of_mem {α : Type} (m : GoMap α) (k : String) (v : α)
    (hwf : mapWF m) (hmem : (k, v) ∈ m) : mapLookup (some m) k = some v := by
  induction m with
  | nil => cases hmem
  | cons e m ih =>
    obtain ⟨k0, v0⟩ := e
    have hnd := List.nodup_cons.1 hwf
    unfold mapLookup
    rcases List.mem_cons.1 hmem with heq | hin
    · cases heq
      simp
    · have hne : ¬ k0 = k := by
        intro h
        subst h
        exact hnd.1 (List.mem_map.2 ⟨(k0, v), hin, rfl⟩)
      simp only [hne, if_false]
      exact ih hnd.2 hin

/-! ## `normalizeHTTPHeaders` -/

theorem mem_mapKeys_foldl_normalizeStep (headers : GoMap (List String)) :
    ∀ (acc : GoMap String) (k : String),
      k ∈ mapKeys (headers.foldl normalizeStep acc) ↔
        k ∈ mapKeys acc ∨ (k ∈ mapKeys headers ∧ isCollected k = true) := by
  induction headers with
  | nil => intro acc k; simp [mapKeys]
  | cons e t ih =>
    intro acc k
    rw [List.foldl_cons, ih]
    obtain ⟨k0, v0⟩ := e
    unfold normalizeStep
    by_cases hc : isCollected k0 = true
    · simp only [hc, if_true, mem_mapKeys_mapAssign]
      simp only [mapKeys, List.map_cons, List.mem_cons]
      constructor
      · rintro ((rfl | h) | ⟨h1, h2⟩)
        · exact Or.inr ⟨Or.inl rfl, hc⟩
        · exact Or.inl h
        · exact Or.inr ⟨Or.inr h1, h2⟩
      · rintro (h | ⟨rfl | h1, h2⟩)
        · exact Or.inl (Or.inr h)
        · exact Or.inl (Or.inl rfl)
        · exact Or.inr ⟨h1, h2⟩
    · simp only [hc, Bool.false_eq_true, if_false]
      simp only [mapKeys, List.map_cons, List.mem_cons]
      constructor
      · rintro (h | ⟨h1, h2⟩)
        · exact Or.inl h
        · exact Or.inr ⟨Or.inr h1, h2⟩
      · rintro (h | ⟨rfl | h1, h2⟩)
        · exact Or.inl h
        · exact absurd h2 hc
        · exact Or.inr ⟨h1, h2⟩

theorem mapKeys_retained_sublist (headers : GoMap (List String)) :
    (mapKeys (retained headers)).Sublist (mapKeys headers) := by
  unfold retained mapKeys
  rw [List.map_map]
  exact List.Sublist.map Prod.fst (List.filter_sublist headers)

theorem retained_wf (headers : GoMap (List String)) (hwf : mapWF headers) :
    mapWF (retained headers) :=
  List.Nodup.sublist (mapKeys_retained_sublist headers) hwf

theorem retained_cons (e : String × List String) (t : GoMap (List String)) :
    retained (e :: t) =
      (if isCollected e.1 then [(e.1, strings.Join e.2 ",")] else []) ++ retained t := by
  unfold retained
  by_cases hc : isCollected e.1 = true
  · simp [List.filter_cons, hc]
  · simp [List.filter_cons, hc]

/-- On a well-formed map every retained header is a new key: the loop appends. -/
theorem foldl_normalizeStep_eq (headers : GoMap (List String)) :
    ∀ acc : GoMap String, mapWF headers →
      (∀ k, k ∈ mapKeys headers → k ∉ mapKeys acc) →
      headers.foldl normalizeStep acc = acc ++ retained headers := by
  induction headers with
  | nil => intro acc _ _; simp [retained]
  | cons e t ih =>
    intro acc hwf hdis
    obtain ⟨k0, v0⟩ := e
    have hnd := List.nodup_cons.1 hwf
    have hk0 : k0 ∉ mapKeys acc := hdis k0 (by simp [mapKeys])
    rw [List.foldl_cons, retained_cons]
    by_cases hc : isCollected k0 = true
    · have hstep : normalizeStep acc (k0, v0) = acc ++ [(k0, strings.Join v0 ",")] := by
        unfold normalizeStep
        simp only [hc, if_true]
        exact mapAssign_append acc k0 _ hk0
      rw [hstep, ih _ hnd.2]
      · simp [hc]
      · intro k hk hin
        simp only [mapKeys, List.map_append, List.map_cons, List.map_nil, List.mem_append,
          List.mem_singleton] at hin
        rcases hin with hin | rfl
        · exact hdis k (by simp only [mapKeys, List.map_cons, List.mem_cons]; exact Or.inr hk) hin
        · exact hnd.1 hk
    · have hstep : normalizeStep acc (k0, v0) = acc := by
        unfold normalizeStep
        simp only [hc, Bool.false_eq_true, if_false]
      rw [hstep, ih _ hnd.2]
      · simp [hc]
      · intro k hk
        exact hdis k (by simp only [mapKeys, List.map_cons, List.mem_cons]; exact Or.inr hk)

/-- The result of `normalizeHTTPHeaders` on a well-formed map. -/
theorem normalizeHTTPHeaders_eq (headers : GoMap (List String)) (hwf : mapWF headers) :
    normalizeHTTPHeaders headers =
      if retained headers = [] then none else some (retained headers) := by
  have hf := foldl_normalizeStep_eq headers [] hwf (by intro k _ h; simp [mapKeys] at h)
  rw [List.nil_append] at hf
  unfold normalizeHTTPHeaders
  simp only [hf]
  by_cases hh : headers = []
  · subst hh
    simp [retained]
  · by_cases hr : retained headers = []
    · simp [hr]
    · simp [hh, hr]

/-- The keys of the result of `normalizeHTTPHeaders`, for every input. -/
theorem normalizeHTTPHeaders_isSome (headers : GoMap (List String)) (k : String) :
    (mapLookup (normalizeHTTPHeaders headers) k).isSome = true ↔
      (k ∈ mapKeys headers ∧ isCollected k = true) := by
  have hkeys := mem_mapKeys_foldl_normalizeStep headers [] k
  simp only [mapKeys, List.map_nil, List.not_mem_nil, false_or] at hkeys
  unfold normalizeHTTPHeaders
  by_cases hh : headers.length = 0
  · have : headers = [] := List.length_eq_zero.1 hh
    subst this
    simp [mapLookup, mapKeys]
  · simp only [hh, if_false]
    by_cases hn : (headers.foldl normalizeStep []).length = 0
    · have hnil : headers.foldl normalizeStep [] = [] := List.length_eq_zero.1 hn
      simp only [hn, if_true]
      rw [hnil] at hkeys
      simp only [List.map_nil, List.not_mem_nil, false_iff] at hkeys
      simp only [mapLookup, Option.isSome_none, Bool.false_eq_true, false_iff]
      exact hkeys
    · simp only [hn, if_false]
      rw [mapLookup_isSome_iff]
      exact hkeys

theorem normalizeHTTPHeaders_ne_empty (headers : GoMap (List String)) :
    normalizeHTTPHeaders headers ≠ some [] := by
  unfold normalizeHTTPHeaders
  by_cases hh : headers.length = 0
  · simp [hh]
  · by_cases hn : (headers.foldl normalizeStep []).length = 0
    · simp [hh, hn]
    · simp only [hh, hn, if_false]
      intro hc
      simp only [Option.some.injEq] at hc
      rw [hc] at hn
      exact hn rfl

theorem normalizeHTTPHeaders_eq_none (headers : GoMap (List String)) :
    normalizeHTTPHeaders headers = none ↔
      ∀ k, k ∈ mapKeys headers → isCollected k = false := by
  constructor
  · intro hnone k hk
    have h := normalizeHTTPHeaders_isSome headers k
    rw [hnone] at h
    simp only [mapLookup, Option.isSome_none, Bool.false_eq_true, false_iff, not_and] at h
    simpa using h hk
  · intro hall
    cases hres : normalizeHTTPHeaders headers with
    | none => rfl
    | some m =>
      exfalso
      cases m with
      | nil => exact normalizeHTTPHeaders_ne_empty headers hres
      | cons e m =>
        have h := (normalizeHTTPHeaders_isSome headers e.1).1
          (by rw [hres, mapLookup_isSome_iff]; simp [mapKeys])
        rw [hall e.1 h.1] at h
        exact Bool.noConfusion h.2

theorem strings_joinLoop_eq (sep : String) (rest : List String) :
    ∀ acc, strings.joinLoop sep acc rest = String.intercalate.go acc sep rest := by
  induction rest with
  | nil => intro acc; rfl
  | cons s rest ih =>
    intro acc
    show strings.joinLoop sep (acc ++ sep ++ s) rest = String.intercalate.go (acc ++ sep ++ s) sep rest
    exact ih _

theorem strings_Join_eq (elems : List String) (sep : String) :
    strings.Join elems sep = sep.intercalate elems := by
  cases elems with
  | nil => rfl
  | cons s rest =>
    cases rest with
    | nil => rfl
    | cons s2 rest => exact strings_joinLoop_eq sep (s2 :: rest) s

/-! ## Claims on `normalizeHTTPHeaders` -/

/-- C1: the result of `normalizeHTTPHeaders h` contains the key `k` exactly when `k` is a
key of `h` and is equal to one of the names declared in `collectedHTTPHeaders`; the entry
is stored under `k` itself, so the keys of the result are keys of the input, unchanged. -/
theorem normalizeHTTPHeaders_contains_iff (h : GoMap (List String)) (k : String) :
    ((mapLookup (normalizeHTTPHeaders h) k).isSome = true ↔
      (k ∈ mapKeys h ∧ k ∈ collectedHTTPHeadersDecl)) ∧
    (∀ m, normalizeHTTPHeaders h = some m →
      (k ∈ mapKeys m ↔ (k ∈ mapKeys h ∧ k ∈ collectedHTTPHeadersDecl))) := by
  have key := normalizeHTTPHeaders_isSome h k
  rw [isCollected_iff] at key
  refine ⟨key, ?_⟩
  intro m hm
  rw [hm, mapLookup_isSome_iff] at key
  exact key

/-- C2: for a header map `h` and an allow-listed key `k` of `h` with values `vs`, the
normalized value at `k` is the elements of `vs` in their order, separated by commas and
otherwise unchanged; the values `["a", "b"]` give `"a,b"`. -/
theorem normalizeHTTPHeaders_value (h : GoMap (List String)) (k : String)
    (vs : List String) (hwf : mapWF h) (hmem : (k, vs) ∈ h)
    (hk : k ∈ collectedHTTPHeadersDecl) :
    mapLookup (normalizeHTTPHeaders h) k = some (",".intercalate vs) ∧
    (vs = ["a", "b"] → mapLookup (normalizeHTTPHeaders h) k = some "a,b") := by
  have hc : isCollected k = true := (isCollected_iff k).2 hk
  have hin : (k, strings.Join vs ",") ∈ retained h := by
    unfold retained
    exact List.mem_map.2 ⟨(k, vs), List.mem_filter.2 ⟨hmem, hc⟩, rfl⟩
  have hne : retained h ≠ [] := List.ne_nil_of_mem hin
  have hval : mapLookup (normalizeHTTPHeaders h) k = some (",".intercalate vs) := by
    rw [normalizeHTTPHeaders_eq h hwf, if_neg hne, ← strings_Join_eq]
    exact mapLookup_of_mem _ k _ (retained_wf h hwf) hin
  refine ⟨hval, ?_⟩
  intro hvs
  rw [hval, hvs]
  rfl

/-- Witness of C2: the header `host` with the values `a` and `b`. -/
theorem normalizeHTTPHeaders_value_witness :
    mapWF [("host", ["a", "b"]), ("x-unknown", ["y"])] ∧
    ("host", ["a", "b"]) ∈ [("host", ["a", "b"]), ("x-unknown", ["y"])] ∧
    "host" ∈ collectedHTTPHeadersDecl ∧
    mapLookup (normalizeHTTPHeaders [("host", ["a", "b"]), ("x-unknown", ["y"])]) "host"
      = some "a,b" :=
  ⟨by decide, by decide, by decide,
    (normalizeHTTPHeaders_value [("host", ["a", "b"]), ("x-unknown", ["y"])] "host"
      ["a", "b"] (by decide) (by decide) (by decide)).2 rfl⟩

/-- C3: `normalizeHTTPHeaders` never returns an empty map: the result is nil or has at
least one entry, and it is nil for the empty (or nil) input. -/
theorem normalizeHTTPHeaders_never_empty (h : GoMap (List String)) :
    (normalizeHTTPHeaders h = none ∨
      ∃ m, normalizeHTTPHeaders h = some m ∧ 1 ≤ m.length) ∧
    normalizeHTTPHeaders [] = none := by
  refine ⟨?_, rfl⟩
  cases hres : normalizeHTTPHeaders h with
  | none => exact Or.inl rfl
  | some m =>
    refine Or.inr ⟨m, rfl, ?_⟩
    cases m with
    | nil => exact absurd hres (normalizeHTTPHeaders_ne_empty h)
    | cons e m => simp

/-- C4: `normalizeHTTPHeaders h` is nil exactly when no key of `h` is a name of the
allow-list. -/
theorem normalizeHTTPHeaders_none_iff (h : GoMap (List String)) :
    normalizeHTTPHeaders h = none ↔
      ∀ k, k ∈ mapKeys h → k ∉ collectedHTTPHeadersDecl := by
  rw [normalizeHTTPHeaders_eq_none]
  constructor
  · intro hall k hk hd
    have := hall k hk
    rw [(isCollected_iff k).2 hd] at this
    exact Bool.noConfusion this
  · intro hall k hk
    cases hc : isCollected k with
    | false => rfl
    | true => exact absurd ((isCollected_iff k).1 hc) (hall k hk)

/-- C5: the allow-list test is an exact, case-sensitive match: a key that differs from
every declared name is not retained, whatever the map; `{"Host": ["x"]}` normalizes to nil
and `{"host": ["x"]}` to `{"host": "x"}`. -/
theorem normalizeHTTPHeaders_exact_match (h : GoMap (List String)) (k : String)
    (hk : k ∉ collectedHTTPHeadersDecl) :
    mapLookup (normalizeHTTPHeaders h) k = none ∧
    normalizeHTTPHeaders [("Host", ["x"])] = none ∧
    normalizeHTTPHeaders [("host", ["x"])] = some [("host", "x")] := by
  refine ⟨?_, by decide, by decide⟩
  have key := normalizeHTTPHeaders_isSome h k
  rw [isCollected_iff] at key
  cases hl : mapLookup (normalizeHTTPHeaders h) k with
  | none => rfl
  | some v =>
    rw [hl] at key
    exact absurd (key.1 rfl).2 hk

/-- Witness of C5: `Host` lower-cases to the declared name `host` and is dropped, next to
a retained `host`. -/
theorem normalizeHTTPHeaders_exact_match_witness :
    "Host" ∉ collectedHTTPHeadersDecl ∧
    String.mk ("Host".data.map Char.toLower) ∈ collectedHTTPHeadersDecl ∧
    mapLookup (normalizeHTTPHeaders [("Host", ["x"]), ("host", ["y"])]) "Host" = none :=
  ⟨by decide, by decide,
    (normalizeHTTPHeaders_exact_match [("Host", ["x"]), ("host", ["y"])] "Host"
      (by decide)).1⟩

/-! ## Span tags -/

theorem headerKey_head (name : String) :
    ("http.request.headers." ++ name).data.head? = some 'h' := by
  rw [String.data_append]
  rfl

/-- A key whose first character is not `h` is not the key of a header tag. -/
theorem ne_headerKey (key : String) (c : Char) (hkey : key.data.head? = some c)
    (hc : c ≠ 'h') (name : String) : key ≠ "http.request.headers." ++ name := by
  intro he
  have h1 := headerKey_head name
  rw [← he, hkey] at h1
  exact hc (Option.some.inj h1)

theorem clientIP_ne_headerKey (name : String) :
    "network.client.ip" ≠ "http.request.headers." ++ name :=
  ne_headerKey "network.client.ip" 'n' rfl (by decide) name

theorem headerKey_injective (a b : String)
    (h : "http.request.headers." ++ a = "http.request.headers." ++ b) : a = b := by
  have hd := congrArg String.data h
  rw [String.data_append, String.data_append] at hd
  exact String.ext (List.append_cancel_left hd)

theorem foldl_setHeaderTag_recorder (l : GoMap String) :
    ∀ calls : List Call,
      l.foldl (setHeaderTag recorder) calls = calls ++ l.map headerCall := by
  induction l with
  | nil => intro calls; simp
  | cons e t ih =>
    intro calls
    rw [List.foldl_cons, ih]
    simp [setHeaderTag, recorder, headerCall]

theorem foldl_setHeaderTag_tagStore (l : GoMap String) (key : String)
    (hkey : ∀ name, key ≠ "http.request.headers." ++ name) :
    ∀ store : TagStore, (l.foldl (setHeaderTag tagStore) store) key = store key := by
  induction l with
  | nil => intro store; rfl
  | cons e t ih =>
    intro store
    rw [List.foldl_cons, ih]
    simp [setHeaderTag, tagStore, hkey e.1]

theorem setEventSpanTags_ok {σ : Type} (S : Span σ) (x : Externals) (w : World σ)
    (events : json.RawMessage) (event : String)
    (hok : x.jsonMarshal (eventTag.mk events) = Except.ok event) :
    setEventSpanTags S x w events =
      World.mk (S.SetTag (S.SetTag (S.SetTag (S.SetTag w.span "_dd.appsec.json"
        (TagValue.str event)) x.ManualKeep (TagValue.bool true)) "_dd.origin"
        (TagValue.str "appsec")) "appsec.event" (TagValue.bool true)) w.log := by
  unfold setEventSpanTags
  rw [hok]

theorem setEventSpanTags_error {σ : Type} (S : Span σ) (x : Externals) (w : World σ)
    (events : json.RawMessage) (err : String)
    (hfail : x.jsonMarshal (eventTag.mk events) = Except.error err) :
    setEventSpanTags S x w events =
      World.mk w.span (w.log ++ [serializationErrorMessage err]) := by
  unfold setEventSpanTags
  rw [hfail]

theorem setEventSpanTags_recorder (x : Externals) (w : World (List Call))
    (events : json.RawMessage) :
    (setEventSpanTags recorder x w events).span = w.span ++ eventCallsOf x events := by
  unfold eventCallsOf
  cases hm : x.jsonMarshal (eventTag.mk events) with
  | error err => rw [setEventSpanTags_error recorder x w events err hm]; simp
  | ok event =>
    rw [setEventSpanTags_ok recorder x w events event hm]
    simp [recorder, eventCalls]

theorem setSpanTags_recorder (x : Externals) (w : World (List Call))
    (events : json.RawMessage) (remoteIP : String) (headers : GoMap (List String)) :
    (setSpanTags recorder x w events remoteIP headers).span =
      w.span ++ (eventCallsOf x events ++ [("network.client.ip", TagValue.str remoteIP)])
        ++ (rangeNormalized x headers).map headerCall := by
  unfold setSpanTags
  simp only [foldl_setHeaderTag_recorder, setEventSpanTags_recorder]
  simp [recorder]

theorem retained_headerCalls (headers : GoMap (List String)) :
    (retained headers).map headerCall = expectedHeaderCalls headers := by
  unfold retained expectedHeaderCalls
  rw [List.map_map]
  have hp : (fun kv : String × List String => isCollected kv.1) =
      (fun kv => decide (kv.1 ∈ collectedHTTPHeadersDecl)) := by
    funext kv
    cases hc : isCollected kv.1 with
    | true => exact (decide_eq_true ((isCollected_iff kv.1).1 hc)).symm
    | false =>
      symm
      apply decide_eq_false
      intro hd
      rw [(isCollected_iff kv.1).2 hd] at hc
      exact Bool.noConfusion hc
  rw [hp]
  apply List.map_congr_left
  intro kv _
  simp [headerCall, strings_Join_eq]

theorem rangeNormalized_perm (x : Externals) (headers : GoMap (List String))
    (hwf : mapWF headers) : (rangeNormalized x headers).Perm (retained headers) := by
  unfold rangeNormalized
  rw [normalizeHTTPHeaders_eq headers hwf]
  by_cases hr : retained headers = []
  · simp [hr]
  · simp only [hr, if_false]
    exact x.rangeOrder_perm _

theorem expectedHeaderCalls_nodup (headers : GoMap (List String)) (hwf : mapWF headers) :
    ((expectedHeaderCalls headers).map Prod.fst).Nodup := by
  rw [← retained_headerCalls, List.map_map]
  have h1 : (Prod.fst ∘ headerCall) = (fun k => "http.request.headers." ++ k) ∘ Prod.fst := by
    funext hv
    rfl
  rw [h1, ← List.map_map]
  exact List.Nodup.map (fun a b hab => headerKey_injective a b hab) (retained_wf headers hwf)

theorem eventCallsOf_not_headerKey (x : Externals) (events : json.RawMessage)
    (remoteIP : String)
    (hmk : ∀ name, x.ManualKeep ≠ "http.request.headers." ++ name) :
    ∀ c ∈ eventCallsOf x events ++ [("network.client.ip", TagValue.str remoteIP)],
      ∀ name, c.1 ≠ "http.request.headers." ++ name := by
  intro c hc name
  rcases List.mem_append.1 hc with hc | hc
  · unfold eventCallsOf at hc
    cases hm : x.jsonMarshal (eventTag.mk events) with
    | error err => rw [hm] at hc; cases hc
    | ok event =>
      rw [hm] at hc
      simp only [eventCalls, List.mem_cons, List.mem_singleton, List.not_mem_nil,
        or_false] at hc
      rcases hc with rfl | rfl | rfl | rfl
      · exact ne_headerKey "_dd.appsec.json" '_' rfl (by decide) name
      · exact hmk name
      · exact ne_headerKey "_dd.origin" '_' rfl (by decide) name
      · exact ne_headerKey "appsec.event" 'a' rfl (by decide) name
  · rw [List.mem_singleton] at hc
    subst hc
    exact clientIP_ne_headerKey name

/-- The calls of `setSpanTags` on a recording span: the calls that are not header tags,
then one header call per allow-listed entry of the map. -/
theorem setSpanTags_calls_split (x : Externals) (calls : List Call) (log : List String)
    (events : json.RawMessage) (remoteIP : String) (h : GoMap (List String))
    (hwf : mapWF h) (hmk : ∀ name, x.ManualKeep ≠ "http.request.headers." ++ name) :
    ∃ pre hdr : List Call,
      (setSpanTags recorder x (World.mk calls log) events remoteIP h).span
        = calls ++ pre ++ hdr ∧
      (∀ c ∈ pre, ∀ name, c.1 ≠ "http.request.headers." ++ name) ∧
      hdr.Perm (expectedHeaderCalls h) ∧
      (hdr.map Prod.fst).Nodup := by
  have hperm : ((rangeNormalized x h).map headerCall).Perm (expectedHeaderCalls h) := by
    rw [← retained_headerCalls]
    exact (rangeNormalized_perm x h hwf).map headerCall
  refine ⟨eventCallsOf x events ++ [("network.client.ip", TagValue.str remoteIP)],
    (rangeNormalized x h).map headerCall, setSpanTags_recorder x _ events remoteIP h,
    eventCallsOf_not_headerKey x events remoteIP hmk, hperm, ?_⟩
  exact (List.Perm.nodup_iff (hperm.map Prod.fst)).2 (expectedHeaderCalls_nodup h hwf)

/-! ## Claims on `setEventSpanTags` and `setSpanTags` -/

/-- C6: when the envelope serializes, to the text `event`, `setEventSpanTags` makes four
calls of `SetTag` and no other: `_dd.appsec.json` with `event`, the key `ext.ManualKeep`
with `true`, `_dd.origin` with `"appsec"` and `appsec.event` with `true`; this holds on
the recording span and, as the same four updates, on every span. -/
theorem setEventSpanTags_four_calls (x : Externals) (calls : List Call)
    (log : List String) (events : json.RawMessage) (event : String)
    (hok : x.jsonMarshal (eventTag.mk events) = Except.ok event) :
    setEventSpanTags recorder x (World.mk calls log) events =
      World.mk (calls ++ [("_dd.appsec.json", TagValue.str event),
        (x.ManualKeep, TagValue.bool true), ("_dd.origin", TagValue.str "appsec"),
        ("appsec.event", TagValue.bool true)]) log ∧
    (∀ (σ : Type) (S : Span σ) (w : World σ), setEventSpanTags S x w events =
      World.mk (S.SetTag (S.SetTag (S.SetTag (S.SetTag w.span "_dd.appsec.json"
        (TagValue.str event)) x.ManualKeep (TagValue.bool true)) "_dd.origin"
        (TagValue.str "appsec")) "appsec.event" (TagValue.bool true)) w.log) := by
  refine ⟨?_, fun σ S w => setEventSpanTags_ok S x w events event hok⟩
  rw [setEventSpanTags_ok recorder x _ events event hok]
  simp [recorder]

/-- Witness of C6: a run with a serializer that succeeds. -/
theorem setEventSpanTags_four_calls_witness :
    sampleExternals.jsonMarshal (eventTag.mk "[]") = Except.ok "triggers=[]" ∧
    setEventSpanTags recorder sampleExternals (World.mk [] []) "[]" =
      World.mk [("_dd.appsec.json", TagValue.str "triggers=[]"),
        ("manual.keep", TagValue.bool true), ("_dd.origin", TagValue.str "appsec"),
        ("appsec.event", TagValue.bool true)] [] :=
  ⟨rfl, (setEventSpanTags_four_calls sampleExternals [] [] "[]" "triggers=[]" rfl).1⟩

/-- C7: when serialization of the envelope fails, `setEventSpanTags` leaves the span as it
was (no call of `SetTag` is made, on any span), logs the error and returns normally. -/
theorem setEventSpanTags_failure {σ : Type} (S : Span σ) (x : Externals) (w : World σ)
    (events : json.RawMessage) (err : String)
    (hfail : x.jsonMarshal (eventTag.mk events) = Except.error err) :
    (setEventSpanTags S x w events).span = w.span ∧
    (setEventSpanTags S x w events).log = w.log ++ [serializationErrorMessage err] ∧
    (∀ calls : List Call,
      (setEventSpanTags recorder x (World.mk calls w.log) events).span = calls) := by
  refine ⟨?_, ?_, ?_⟩
  · rw [setEventSpanTags_error S x w events err hfail]
  · rw [setEventSpanTags_error S x w events err hfail]
  · intro calls
    rw [setEventSpanTags_error recorder x _ events err hfail]

/-- Witness of C7: a run with a serializer that fails, on a recording span. -/
theorem setEventSpanTags_failure_witness :
    failingExternals.jsonMarshal (eventTag.mk "[]") = Except.error "marshal failed" ∧
    (setEventSpanTags recorder failingExternals
      (World.mk [("k", TagValue.bool false)] []) "[]").span = [("k", TagValue.bool false)] ∧
    (setEventSpanTags recorder failingExternals
      (World.mk [("k", TagValue.bool false)] []) "[]").log =
      ["appsec: unexpected error while serializing the appsec event span tag: marshal failed"] :=
  ⟨rfl,
    (setEventSpanTags_failure recorder failingExternals
      (World.mk [("k", TagValue.bool false)] []) "[]" "marshal failed" rfl).1,
    (setEventSpanTags_failure recorder failingExternals
      (World.mk [("k", TagValue.bool false)] []) "[]" "marshal failed" rfl).2.1⟩

/-- C8: after `setSpanTags` the tag `network.client.ip` of the span is `remoteIP`, for
every events payload (serialized or not), every `remoteIP` and every header map; on the
recording span the call `SetTag("network.client.ip", remoteIP)` is always made. -/
theorem setSpanTags_client_ip (x : Externals) (store : TagStore) (log : List String)
    (events : json.RawMessage) (remoteIP : String) (h : GoMap (List String)) :
    (setSpanTags tagStore x (World.mk store log) events remoteIP h).span
      "network.client.ip" = some (TagValue.str remoteIP) ∧
    (∀ calls : List Call, ("network.client.ip", TagValue.str remoteIP) ∈
      (setSpanTags recorder x (World.mk calls log) events remoteIP h).span) := by
  constructor
  · unfold setSpanTags
    simp only []
    rw [foldl_setHeaderTag_tagStore _ _ clientIP_ne_headerKey]
    simp [tagStore]
  · intro calls
    rw [setSpanTags_recorder]
    simp

/-- C9: on a recording span the calls of `setSpanTags` whose key has the form
`"http.request.headers." + name` are, in some order, one call per allow-listed key `k` of
`h`, with the key `"http.request.headers." + k` and the comma-join of `h[k]` as value; no
key occurs twice among them.  For `{"user-agent": ["x"], "x-unknown": ["y"]}` the only
such call sets `http.request.headers.user-agent` to `"x"`. -/
theorem setSpanTags_header_calls (x : Externals) (calls : List Call) (log : List String)
    (events : json.RawMessage) (remoteIP : String) (h : GoMap (List String))
    (hwf : mapWF h) (hmk : ∀ name, x.ManualKeep ≠ "http.request.headers." ++ name) :
    (∃ pre hdr : List Call,
      (setSpanTags recorder x (World.mk calls log) events remoteIP h).span
        = calls ++ pre ++ hdr ∧
      (∀ c ∈ pre, ∀ name, c.1 ≠ "http.request.headers." ++ name) ∧
      hdr.Perm ((h.filter (fun kv => decide (kv.1 ∈ collectedHTTPHeadersDecl))).map
        (fun kv => ("http.request.headers." ++ kv.1,
          TagValue.str (",".intercalate kv.2)))) ∧
      (hdr.map Prod.fst).Nodup) ∧
    (∃ pre : List Call,
      (setSpanTags recorder x (World.mk calls log) events remoteIP
        [("user-agent", ["x"]), ("x-unknown", ["y"])]).span
        = calls ++ pre ++ [("http.request.headers.user-agent", TagValue.str "x")] ∧
      (∀ c ∈ pre, ∀ name, c.1 ≠ "http.request.headers." ++ name)) := by
  refine ⟨setSpanTags_calls_split x calls log events remoteIP h hwf hmk, ?_⟩
  obtain ⟨pre, hdr, hspan, hpre, hperm, _⟩ := setSpanTags_calls_split x calls log events
    remoteIP [("user-agent", ["x"]), ("x-unknown", ["y"])] (by decide) hmk
  have hexp : expectedHeaderCalls [("user-agent", ["x"]), ("x-unknown", ["y"])] =
      [("http.request.headers.user-agent", TagValue.str "x")] := by decide
  rw [hexp] at hperm
  rw [List.perm_singleton.1 hperm] at hspan
  exact ⟨pre, hspan, hpre⟩

/-- Witness of C9: the map of the example, on an empty recording span. -/
theorem setSpanTags_header_calls_witness :
    mapWF [("user-agent", ["x"]), ("x-unknown", ["y"])] ∧
    (∀ name, sampleExternals.ManualKeep ≠ "http.request.headers." ++ name) ∧
    (∃ pre : List Call,
      (setSpanTags recorder sampleExternals (World.mk [] []) "[]" "1.2.3.4"
        [("user-agent", ["x"]), ("x-unknown", ["y"])]).span
        = [] ++ pre ++ [("http.request.headers.user-agent", TagValue.str "x")] ∧
      (∀ c ∈ pre, ∀ name, c.1 ≠ "http.request.headers." ++ name)) :=
  ⟨by decide, fun name => ne_headerKey "manual.keep" 'm' rfl (by decide) name,
    (setSpanTags_header_calls sampleExternals [] [] "[]" "1.2.3.4"
      [("user-agent", ["x"]), ("x-unknown", ["y"])] (by decide)
      (fun name => ne_headerKey "manual.keep" 'm' rfl (by decide) name)).2⟩

/-- C10: when the serialization inside `setSpanTags` fails, the span is the initial one
updated with `network.client.ip = remoteIP` and then with one header tag per entry of the
normalized map; no call of `SetTag` has the key of one of the four event tags, and on a
tag store these four tags keep the value they had. -/
theorem setSpanTags_on_failure {σ : Type} (S : Span σ) (x : Externals) (w : World σ)
    (events : json.RawMessage) (remoteIP : String) (h : GoMap (List String))
    (err : String)
    (hfail : x.jsonMarshal (eventTag.mk events) = Except.error err)
    (hmk1 : x.ManualKeep ≠ "network.client.ip")
    (hmk2 : ∀ name, x.ManualKeep ≠ "http.request.headers." ++ name) :
    (setSpanTags S x w events remoteIP h).span =
      (rangeNormalized x h).foldl
        (fun span hv => S.SetTag span ("http.request.headers." ++ hv.1) (TagValue.str hv.2))
        (S.SetTag w.span "network.client.ip" (TagValue.str remoteIP)) ∧
    (∀ calls : List Call, ∃ made : List Call,
      (setSpanTags recorder x (World.mk calls w.log) events remoteIP h).span
        = calls ++ made ∧
      ∀ c ∈ made, c.1 ∉ eventTagKeys x) ∧
    (∀ (store : TagStore) (key : String), key ∈ eventTagKeys x →
      (setSpanTags tagStore x (World.mk store w.log) events remoteIP h).span key
        = store key) := by
  have hkeys : ∀ key, key ∈ eventTagKeys x →
      key ≠ "network.client.ip" ∧ ∀ name, key ≠ "http.request.headers." ++ name := by
    intro key hkey
    simp only [eventTagKeys, List.mem_cons, List.mem_singleton, List.not_mem_nil,
      or_false] at hkey
    rcases hkey with rfl | rfl | rfl | rfl
    · exact ⟨by decide, ne_headerKey "_dd.appsec.json" '_' rfl (by decide)⟩
    · exact ⟨hmk1, hmk2⟩
    · exact ⟨by decide, ne_headerKey "_dd.origin" '_' rfl (by decide)⟩
    · exact ⟨by decide, ne_headerKey "appsec.event" 'a' rfl (by decide)⟩
  refine ⟨?_, ?_, ?_⟩
  · unfold setSpanTags
    rw [setEventSpanTags_error S x w events err hfail]
    rfl
  · intro calls
    refine ⟨[("network.client.ip", TagValue.str remoteIP)] ++
      (rangeNormalized x h).map headerCall, ?_, ?_⟩
    · rw [setSpanTags_recorder]
      simp [eventCallsOf, hfail]
    · intro c hc hin
      obtain ⟨h1, h2⟩ := hkeys c.1 hin
      rcases List.mem_append.1 hc with hc | hc
      · rw [List.mem_singleton] at hc
        exact h1 (by rw [hc])
      · obtain ⟨hv, _, rfl⟩ := List.mem_map.1 hc
        exact h2 hv.1 rfl
  · intro store key hkey
    obtain ⟨h1, h2⟩ := hkeys key hkey
    unfold setSpanTags
    rw [setEventSpanTags_error tagStore x _ events err hfail]
    simp only []
    rw [foldl_setHeaderTag_tagStore _ key h2]
    simp [tagStore, h1]

/-- Witness of C10: a failing serializer, a tag store with an old event tag, and the
header `host`. -/
theorem setSpanTags_on_failure_witness :
    failingExternals.jsonMarshal (eventTag.mk "[]") = Except.error "marshal failed" ∧
    failingExternals.ManualKeep ≠ "network.client.ip" ∧
    (∀ name, failingExternals.ManualKeep ≠ "http.request.headers." ++ name) ∧
    (setSpanTags tagStore failingExternals (World.mk (fun _ => none) []) "[]" "1.2.3.4"
      [("host", ["y"]), ("x-unknown", ["z"])]).span =
      (rangeNormalized failingExternals [("host", ["y"]), ("x-unknown", ["z"])]).foldl
        (fun span hv =>
          tagStore.SetTag span ("http.request.headers." ++ hv.1) (TagValue.str hv.2))
        (tagStore.SetTag (fun _ => none) "network.client.ip" (TagValue.str "1.2.3.4")) :=
  ⟨rfl, by decide, fun name => ne_headerKey "manual.keep" 'm' rfl (by decide) name,
    (setSpanTags_on_failure tagStore failingExternals (World.mk (fun _ => none) []) "[]"
      "1.2.3.4" [("host", ["y"]), ("x-unknown", ["z"])] "marshal failed" rfl (by decide)
      (fun name => ne_headerKey "manual.keep" 'm' rfl (by decide) name)).1⟩

/-! ## Claims on the allow-list -/

theorem searchMember_iff (a : List String) (k : String) (hn : a.length < 2 ^ 63)
    (hs : a.Pairwise (fun p q => p ≤ q)) : searchMember a k = true ↔ k ∈ a := by
  have h := searchStrings_mem a k hn hs
  rw [← h.2]
  unfold searchMember
  constructor
  · intro hc
    by_cases hlt : sort.SearchStrings a k < a.length
    · simp only [hlt, dite_true, beq_iff_eq] at hc
      exact ⟨hlt, hc⟩
    · simp only [hlt, dite_false] at hc
      exact Bool.noConfusion hc
  · rintro ⟨hlt, he⟩
    simp only [hlt, dite_true, beq_iff_eq]
    exact he

/-- The loop of `sort.Search` on `[0, n)` reads the predicate below `n` only. -/
theorem searchLoop_congr (f g : Nat → Bool) (n : Nat) (hn : n < 2 ^ 63)
    (hfg : ∀ m, m < n → f m = g m) :
    ∀ fuel i j, j ≤ n → sort.searchLoop f fuel i j = sort.searchLoop g fuel i j := by
  intro fuel
  induction fuel with
  | zero => intro i j _; rfl
  | succ fuel ih =>
    intro i j hj
    unfold sort.searchLoop
    by_cases hlt : i < j
    · have hmod : (i + j) % 2 ^ 64 = i + j := Nat.mod_eq_of_lt (by omega)
      have hh : (i + j) / 2 < n := by omega
      simp only [hlt, if_true, hmod, hfg _ hh]
      rw [ih _ _ hj, ih _ _ (by omega)]
    · simp only [hlt, if_false]

theorem sortStrings_pairwise_strLess (a : List String) :
    (sort.Strings a).Pairwise (fun p q => strLess q p = false) := by
  refine List.Pairwise.imp ?_ (sortStrings_sorted a)
  intro p q hpq
  exact (strLess_eq_false_iff q p).2 hpq

/-- C12: after `init` the array `collectedHTTPHeaders` is in non-decreasing order for Go's
string comparison (no later element is less than an earlier one) and is a rearrangement of
the declared names; this is the value every call of `normalizeHTTPHeaders` reads, and
`init` sorts any array it is given. -/
theorem collectedHTTPHeaders_sorted :
    collectedHTTPHeaders.Pairwise (fun p q => strLess q p = false) ∧
    collectedHTTPHeaders.Pairwise (fun p q => p ≤ q) ∧
    collectedHTTPHeaders.Perm collectedHTTPHeadersDecl ∧
    (∀ a : List String,
      (init a).Pairwise (fun p q => strLess q p = false) ∧ (init a).Perm a) ∧
    collectedHTTPHeaders = ["accept", "accept-encoding", "accept-language",
      "content-encoding", "content-language", "content-length", "content-type",
      "forwarded", "forwarded", "forwarded-for", "host", "true-client-ip", "user-agent",
      "via", "x-client-ip", "x-cluster-client-ip", "x-forwarded", "x-forwarded-for",
      "x-real-ip"] :=
  ⟨sortStrings_pairwise_strLess collectedHTTPHeadersDecl,
    sortStrings_sorted collectedHTTPHeadersDecl,
    sortStrings_perm collectedHTTPHeadersDecl,
    fun a => ⟨sortStrings_pairwise_strLess a, sortStrings_perm a⟩,
    by decide⟩

/-- Counterexample to C13: the name `forwarded` occurs twice, in the declared array and
in the sorted one. -/
theorem collectedHTTPHeaders_not_nodup :
    collectedHTTPHeaders.length = 19 ∧
    ¬ collectedHTTPHeaders.Nodup ∧
    ¬ collectedHTTPHeadersDecl.Nodup ∧
    collectedHTTPHeadersDecl.get? 7 = some "forwarded" ∧
    collectedHTTPHeadersDecl.get? 14 = some "forwarded" := by
  decide

/-- C13, amended: `collectedHTTPHeaders` holds 19 entries; `forwarded` occurs twice and
every other name once, so the allow-list is a set of 18 names. -/
theorem collectedHTTPHeaders_entries :
    collectedHTTPHeaders.length = 19 ∧
    collectedHTTPHeaders.count "forwarded" = 2 ∧
    (∀ k, k ∈ collectedHTTPHeaders → k ≠ "forwarded" → collectedHTTPHeaders.count k = 1) ∧
    collectedHTTPHeaders.dedup.length = 18 := by
  refine ⟨by decide, by decide, ?_, by decide⟩
  have h : ∀ k ∈ collectedHTTPHeaders,
      k ≠ "forwarded" → collectedHTTPHeaders.count k = 1 := by decide
  exact h

theorem collectedHTTPHeadersDecl_lower :
    ∀ k ∈ collectedHTTPHeadersDecl, asciiLower k = k := by
  decide

/-- C14: every name in `collectedHTTPHeaders` equals its ASCII lower-casing, and so does
every key of every result of `normalizeHTTPHeaders`. -/
theorem collectedHTTPHeaders_lower :
    (∀ k, k ∈ collectedHTTPHeaders → asciiLower k = k) ∧
    (∀ (h : GoMap (List String)) (m : GoMap String), normalizeHTTPHeaders h = some m →
      ∀ k, k ∈ mapKeys m → asciiLower k = k) := by
  constructor
  · intro k hk
    exact collectedHTTPHeadersDecl_lower k ((collectedHTTPHeaders_mem k).1 hk)
  · intro h m hm k hk
    have key := (normalizeHTTPHeaders_isSome h k).1
      (by rw [hm, mapLookup_isSome_iff]; exact hk)
    exact collectedHTTPHeadersDecl_lower k ((isCollected_iff k).1 key.2)

theorem mem_erase_forwarded (k : String) :
    k ∈ collectedHTTPHeadersDecl.erase "forwarded" ↔ k ∈ collectedHTTPHeadersDecl := by
  constructor
  · exact List.mem_of_mem_erase
  · have h : ∀ q ∈ collectedHTTPHeadersDecl, q ∈ collectedHTTPHeadersDecl.erase "forwarded" := by
      decide
    exact h k

/-- C15: the binary-search test of line 83 agrees with membership in the declared names:
the index found by `sort.SearchStrings` is at most the length of the array, the guarded
comparison at that index holds exactly for the declared names, the search never reads the
array outside its bounds, and the test gives the same answer on the array declared with a
single `forwarded`. -/
theorem isCollected_refines_membership (k : String) :
    sort.SearchStrings collectedHTTPHeaders k ≤ collectedHTTPHeaders.length ∧
    ((∃ h : sort.SearchStrings collectedHTTPHeaders k < collectedHTTPHeaders.length,
        collectedHTTPHeaders[sort.SearchStrings collectedHTTPHeaders k] = k) ↔
      k ∈ collectedHTTPHeadersDecl) ∧
    isCollected k = decide (k ∈ collectedHTTPHeadersDecl) ∧
    (∀ d : Bool, sort.Search collectedHTTPHeaders.length (fun i =>
        match collectedHTTPHeaders[i]? with
        | some s => strGreaterEq s k
        | none => d) = sort.SearchStrings collectedHTTPHeaders k) ∧
    isCollected k = searchMember (init (collectedHTTPHeadersDecl.erase "forwarded")) k := by
  have hlen : collectedHTTPHeaders.length < 2 ^ 63 := by
    rw [collectedHTTPHeaders_length]; norm_num
  have h := searchStrings_mem collectedHTTPHeaders k hlen
    (sortStrings_sorted collectedHTTPHeadersDecl)
  have hdec : isCollected k = decide (k ∈ collectedHTTPHeadersDecl) := by
    cases hc : isCollected k with
    | true => exact (decide_eq_true ((isCollected_iff k).1 hc)).symm
    | false =>
      symm
      apply decide_eq_false
      intro hd
      rw [(isCollected_iff k).2 hd] at hc
      exact Bool.noConfusion hc
  refine ⟨h.1, ?_, hdec, ?_, ?_⟩
  · rw [h.2]
    exact collectedHTTPHeaders_mem k
  · intro d
    unfold sort.SearchStrings sort.Search
    apply searchLoop_congr _ _ _ hlen _ _ _ _ (le_refl _)
    intro m hm
    simp only [List.getElem?_eq_getElem hm]
  · rw [hdec]
    have hlen2 : (init (collectedHTTPHeadersDecl.erase "forwarded")).length < 2 ^ 63 := by
      have : (init (collectedHTTPHeadersDecl.erase "forwarded")).length = 18 := by decide
      rw [this]; norm_num
    have hm := searchMember_iff (init (collectedHTTPHeadersDecl.erase "forwarded")) k hlen2
      (sortStrings_sorted _)
    have hp : k ∈ init (collectedHTTPHeadersDecl.erase "forwarded") ↔
        k ∈ collectedHTTPHeadersDecl := by
      rw [← mem_erase_forwarded k]
      exact (sortStrings_perm _).mem_iff
    cases hs : searchMember (init (collectedHTTPHeadersDecl.erase "forwarded")) k with
    | true => exact decide_eq_true (hp.1 (hm.1 hs))
    | false =>
      apply decide_eq_false
      intro hd
      rw [hm.2 (hp.2 hd)] at hs
      exact Bool.noConfusion hs

/-! ## The tag store after `setSpanTags` -/

theorem mapWF_mapAssign {α : Type} (m : GoMap α) (k : String) (v : α) (hwf : mapWF m) :
    mapWF (mapAssign m k v) := by
  induction m with
  | nil => simp [mapAssign, mapWF, mapKeys]
  | cons e m ih =>
    obtain ⟨k0, v0⟩ := e
    have hnd := List.nodup_cons.1 hwf
    unfold mapAssign
    by_cases hk : k0 = k
    · subst hk
      simp only [if_true]
      exact hwf
    · simp only [hk, if_false]
      refine List.nodup_cons.2 ⟨?_, ih hnd.2⟩
      intro hin
      rcases (mem_mapKeys_mapAssign m k v k0).1 hin with h | h
      · exact hk h
      · exact hnd.1 h

theorem foldl_normalizeStep_wf (headers : GoMap (List String)) :
    ∀ acc : GoMap String, mapWF acc → mapWF (headers.foldl normalizeStep acc) := by
  induction headers with
  | nil => intro acc h; exact h
  | cons e t ih =>
    intro acc h
    rw [List.foldl_cons]
    apply ih
    unfold normalizeStep
    split
    · exact mapWF_mapAssign acc _ _ h
    · exact h

/-- The map returned by `normalizeHTTPHeaders` has pairwise distinct keys. -/
theorem normalizeHTTPHeaders_wf (headers : GoMap (List String)) (m : GoMap String)
    (hm : normalizeHTTPHeaders headers = some m) : mapWF m := by
  unfold normalizeHTTPHeaders at hm
  by_cases hh : headers.length = 0
  · simp [hh] at hm
  · by_cases hn : (headers.foldl normalizeStep []).length = 0
    · simp [hh, hn] at hm
    · simp only [hh, hn, if_false, Option.some.injEq] at hm
      rw [← hm]
      exact foldl_normalizeStep_wf headers [] List.nodup_nil

theorem rangeNormalized_wf (x : Externals) (headers : GoMap (List String)) :
    mapWF (rangeNormalized x headers) := by
  unfold rangeNormalized
  cases hm : normalizeHTTPHeaders headers with
  | none => exact List.nodup_nil
  | some m =>
    have hp := (x.rangeOrder_perm m).map Prod.fst
    exact (List.Perm.nodup_iff hp).2 (normalizeHTTPHeaders_wf headers m hm)

/-- Two visiting orders of the normalized map of the same headers. -/
theorem rangeNormalized_perm_same (x1 x2 : Externals) (headers : GoMap (List String)) :
    (rangeNormalized x1 headers).Perm (rangeNormalized x2 headers) := by
  unfold rangeNormalized
  cases normalizeHTTPHeaders headers with
  | none => exact List.Perm.refl _
  | some m => exact (x1.rangeOrder_perm m).trans (x2.rangeOrder_perm m).symm

theorem retained_perm (h1 h2 : GoMap (List String)) (hp : h1.Perm h2) :
    (retained h1).Perm (retained h2) := by
  unfold retained
  exact (hp.filter _).map _

/-- Header tags with distinct names can be written in any order. -/
theorem foldl_setHeaderTag_perm (l1 l2 : GoMap String) (hp : l1.Perm l2)
    (hwf : mapWF l1) (store : TagStore) :
    l1.foldl (setHeaderTag tagStore) store = l2.foldl (setHeaderTag tagStore) store := by
  apply List.Perm.foldl_eq' hp
  intro a ha b hb z
  by_cases hab : a.1 = b.1
  · have hpw : l1.Pairwise (fun p q => p.1 ≠ q.1) := by
      have := hwf
      unfold mapWF mapKeys at this
      exact List.pairwise_map.1 this
    have heq : a = b := by
      by_contra hne
      rcases List.Pairwise.forall_of_forall (R := fun p q => p.1 ≠ q.1 ∨ p = q)
        (fun _ _ h => h.elim (fun h => Or.inl (Ne.symm h)) (fun h => Or.inr h.symm))
        (fun _ _ => Or.inr rfl) (hpw.imp (fun h => Or.inl h)) ha hb with h | h
      · exact h hab
      · exact hne h
    rw [heq]
  · funext key
    simp only [setHeaderTag, tagStore]
    by_cases h1 : key = "http.request.headers." ++ b.1
    · by_cases h2 : key = "http.request.headers." ++ a.1
      · exact absurd (headerKey_injective a.1 b.1 (h2.symm.trans h1)) hab
      · subst h1
        simp [h2]
    · simp [h1]

theorem setSpanTags_replay {σ : Type} (S : Span σ) (x : Externals) (w : World σ)
    (events : json.RawMessage) (remoteIP : String) (headers : GoMap (List String)) :
    (setSpanTags S x w events remoteIP headers).span =
      replay S (callsOf x events remoteIP headers) w.span := by
  unfold setSpanTags callsOf replay eventCallsOf
  simp only [List.foldl_append, List.foldl_map, List.foldl_cons, List.foldl_nil]
  cases hm : x.jsonMarshal (eventTag.mk events) with
  | error err =>
    rw [setEventSpanTags_error S x w events err hm]
    rfl
  | ok event =>
    rw [setEventSpanTags_ok S x w events event hm]
    rfl

theorem replay_tagStore_other (cs : List Call) (key : String)
    (hkey : ∀ c, c ∈ cs → c.1 ≠ key) :
    ∀ store : TagStore, replay tagStore cs store key = store key := by
  induction cs with
  | nil => intro store; rfl
  | cons c cs ih =>
    intro store
    have h1 : c.1 ≠ key := hkey c (List.mem_cons_self _ _)
    show replay tagStore cs (tagStore.SetTag store c.1 c.2) key = store key
    rw [ih (fun d hd => hkey d (List.mem_cons_of_mem _ hd))]
    simp [tagStore, Ne.symm h1]

/-- A sequence of calls acts on a tag store as an overlay: a key written by the sequence
gets the value written last, the other keys keep their value. -/
theorem replay_tagStore_overlay (cs : List Call) (key : String) :
    ∀ store : TagStore, replay tagStore cs store key =
      match replay tagStore cs emptyStore key with
      | some v => some v
      | none => store key := by
  induction cs with
  | nil => intro store; rfl
  | cons c cs ih =>
    intro store
    show replay tagStore cs (tagStore.SetTag store c.1 c.2) key =
      match replay tagStore cs (tagStore.SetTag emptyStore c.1 c.2) key with
      | some v => some v
      | none => store key
    rw [ih (tagStore.SetTag store c.1 c.2), ih (tagStore.SetTag emptyStore c.1 c.2)]
    cases replay tagStore cs emptyStore key with
    | some v => rfl
    | none =>
      simp only [tagStore, emptyStore]
      by_cases hk : key = c.1
      · simp [hk]
      · simp [hk]

theorem replay_tagStore_idem (cs : List Call) (store : TagStore) :
    replay tagStore cs (replay tagStore cs store) = replay tagStore cs store := by
  funext key
  rw [replay_tagStore_overlay cs key (replay tagStore cs store),
    replay_tagStore_overlay cs key store]
  cases replay tagStore cs emptyStore key with
  | some v => rfl
  | none => rfl

theorem eventCallsOf_congr (x1 x2 : Externals) (hm : x1.jsonMarshal = x2.jsonMarshal)
    (hk : x1.ManualKeep = x2.ManualKeep) (events : json.RawMessage) :
    eventCallsOf x1 events = eventCallsOf x2 events := by
  unfold eventCallsOf eventCalls
  rw [hm, hk]

/-- The tag store after `setSpanTags` does not depend on the order in which the two maps
are visited. -/
theorem setSpanTags_tagStore_order (x1 x2 : Externals)
    (hm : x1.jsonMarshal = x2.jsonMarshal) (hk : x1.ManualKeep = x2.ManualKeep)
    (w : World TagStore) (events : json.RawMessage) (remoteIP : String)
    (h1 h2 : GoMap (List String))
    (hp : (rangeNormalized x1 h1).Perm (rangeNormalized x2 h2)) :
    (setSpanTags tagStore x1 w events remoteIP h1).span =
      (setSpanTags tagStore x2 w events remoteIP h2).span := by
  rw [setSpanTags_replay, setSpanTags_replay]
  unfold callsOf replay
  rw [eventCallsOf_congr x1 x2 hm hk]
  simp only [List.foldl_append, List.foldl_map]
  exact foldl_setHeaderTag_perm _ _ hp (rangeNormalized_wf x1 h1) _

theorem setSpanTags_log {σ : Type} (S : Span σ) (x : Externals) (w : World σ)
    (events : json.RawMessage) (remoteIP : String) (headers : GoMap (List String)) :
    (setSpanTags S x w events remoteIP headers).log = (setEventSpanTags S x w events).log :=
  rfl

theorem mem_rangeNormalized_key (x : Externals) (headers : GoMap (List String))
    (e : String × String) (he : e ∈ rangeNormalized x headers) :
    e.1 ∈ mapKeys headers ∧ e.1 ∈ collectedHTTPHeadersDecl := by
  unfold rangeNormalized at he
  cases hm : normalizeHTTPHeaders headers with
  | none => rw [hm] at he; cases he
  | some m =>
    rw [hm] at he
    have hin : e ∈ m := (x.rangeOrder_perm m).subset he
    have hkey : e.1 ∈ mapKeys m := List.mem_map.2 ⟨e, hin, rfl⟩
    have key := (normalizeHTTPHeaders_isSome headers e.1).1
      (by rw [hm, mapLookup_isSome_iff]; exact hkey)
    exact ⟨key.1, (isCollected_iff e.1).1 key.2⟩

theorem mem_eventCallsOf_key (x : Externals) (events : json.RawMessage) (c : Call)
    (hc : c ∈ eventCallsOf x events) : c.1 ∈ eventTagKeys x := by
  unfold eventCallsOf at hc
  cases hm : x.jsonMarshal (eventTag.mk events) with
  | error err => rw [hm] at hc; cases hc
  | ok event =>
    rw [hm] at hc
    simp only [eventCalls, List.mem_cons, List.mem_singleton, List.not_mem_nil,
      or_false] at hc
    rcases hc with rfl | rfl | rfl | rfl <;> simp [eventTagKeys]

/-! ## Claims on the tag store -/

/-- C16: `setSpanTags` changes only the tags it names: a tag whose key is none of the
four event keys, is not `network.client.ip` and is not `"http.request.headers." + k` for
a retained header `k` has the same value after the call as before.  No header key equals
`_dd.appsec.json`, `_dd.origin`, `appsec.event` or `network.client.ip`, nor the key
`ext.ManualKeep` when that constant is not itself of the header form; the header loop then
leaves the event tags and the client-IP tag as the calls before it set them. -/
theorem setSpanTags_frame (x : Externals) (store : TagStore) (log : List String)
    (events : json.RawMessage) (remoteIP : String) (h : GoMap (List String))
    (key : String) (hk1 : key ∉ eventTagKeys x) (hk2 : key ≠ "network.client.ip")
    (hk3 : ∀ k, k ∈ mapKeys h → k ∈ collectedHTTPHeadersDecl →
      key ≠ "http.request.headers." ++ k) :
    (setSpanTags tagStore x (World.mk store log) events remoteIP h).span key = store key ∧
    (∀ name, "http.request.headers." ++ name ∉
      ["_dd.appsec.json", "_dd.origin", "appsec.event", "network.client.ip"]) ∧
    ((∀ name, x.ManualKeep ≠ "http.request.headers." ++ name) →
      (∀ name, "http.request.headers." ++ name ∉ eventTagKeys x) ∧
      (∀ fixed, fixed ∈ "network.client.ip" :: eventTagKeys x →
        (setSpanTags tagStore x (World.mk store log) events remoteIP h).span fixed =
          tagStore.SetTag (setEventSpanTags tagStore x (World.mk store log) events).span
            "network.client.ip" (TagValue.str remoteIP) fixed)) := by
  have hlit : ∀ name, "http.request.headers." ++ name ∉
      ["_dd.appsec.json", "_dd.origin", "appsec.event", "network.client.ip"] := by
    intro name hin
    simp only [List.mem_cons, List.mem_singleton, List.not_mem_nil, or_false] at hin
    rcases hin with h | h | h | h
    · exact ne_headerKey "_dd.appsec.json" '_' rfl (by decide) name h.symm
    · exact ne_headerKey "_dd.origin" '_' rfl (by decide) name h.symm
    · exact ne_headerKey "appsec.event" 'a' rfl (by decide) name h.symm
    · exact clientIP_ne_headerKey name h.symm
  refine ⟨?_, hlit, ?_⟩
  · rw [setSpanTags_replay]
    apply replay_tagStore_other
    intro c hc heq
    unfold callsOf at hc
    rcases List.mem_append.1 hc with hc | hc
    · rcases List.mem_append.1 hc with hc | hc
      · exact hk1 (heq ▸ mem_eventCallsOf_key x events c hc)
      · rw [List.mem_singleton] at hc
        subst hc
        exact hk2 heq.symm
    · obtain ⟨e, he, rfl⟩ := List.mem_map.1 hc
      have hkey := mem_rangeNormalized_key x h e he
      exact hk3 e.1 hkey.1 hkey.2 heq.symm
  · intro hmk
    have hev : ∀ name, "http.request.headers." ++ name ∉ eventTagKeys x := by
      intro name hin
      simp only [eventTagKeys, List.mem_cons, List.mem_singleton, List.not_mem_nil,
        or_false] at hin
      rcases hin with h | h | h | h
      · exact ne_headerKey "_dd.appsec.json" '_' rfl (by decide) name h.symm
      · exact hmk name h.symm
      · exact ne_headerKey "_dd.origin" '_' rfl (by decide) name h.symm
      · exact ne_headerKey "appsec.event" 'a' rfl (by decide) name h.symm
    refine ⟨hev, ?_⟩
    intro fixed hfixed
    unfold setSpanTags
    simp only []
    apply foldl_setHeaderTag_tagStore
    intro name heq
    rcases List.mem_cons.1 hfixed with h | h
    · exact clientIP_ne_headerKey name (h ▸ heq)
    · exact hev name (heq ▸ h)

/-- Witness of C16: a tag `other` set before the call keeps its value. -/
theorem setSpanTags_frame_witness :
    "other" ∉ eventTagKeys sampleExternals ∧
    "other" ≠ "network.client.ip" ∧
    (∀ k, k ∈ mapKeys [("host", ["y"])] → k ∈ collectedHTTPHeadersDecl →
      "other" ≠ "http.request.headers." ++ k) ∧
    (setSpanTags tagStore sampleExternals
      (World.mk (tagStore.SetTag emptyStore "other" (TagValue.bool false)) []) "[]"
      "1.2.3.4" [("host", ["y"])]).span "other" = some (TagValue.bool false) :=
  ⟨by decide, by decide, fun k _ _ => ne_headerKey "other" 'o' rfl (by decide) k,
    (setSpanTags_frame sampleExternals
      (tagStore.SetTag emptyStore "other" (TagValue.bool false)) [] "[]" "1.2.3.4"
      [("host", ["y"])] "other" (by decide) (by decide)
      (fun k _ _ => ne_headerKey "other" 'o' rfl (by decide) k)).1⟩

/-- C17: the tag store left by `setSpanTags` does not depend on the order in which the
maps are visited: two enumerations of the same header map, and two visiting orders of the
normalized map, give equal tag stores (and equal logs); the key of a header tag determines
the header name. -/
theorem setSpanTags_order_independent (x1 x2 : Externals)
    (hm : x1.jsonMarshal = x2.jsonMarshal) (hk : x1.ManualKeep = x2.ManualKeep)
    (w : World TagStore) (events : json.RawMessage) (remoteIP : String)
    (h1 h2 : GoMap (List String)) (hperm : h1.Perm h2) (hwf : mapWF h1) :
    (setSpanTags tagStore x1 w events remoteIP h1).span =
      (setSpanTags tagStore x2 w events remoteIP h2).span ∧
    (setSpanTags tagStore x1 w events remoteIP h1).log =
      (setSpanTags tagStore x2 w events remoteIP h2).log ∧
    (∀ a b : String, "http.request.headers." ++ a = "http.request.headers." ++ b → a = b) := by
  have hwf2 : mapWF h2 := (List.Perm.nodup_iff (hperm.map Prod.fst)).1 hwf
  have hp : (rangeNormalized x1 h1).Perm (rangeNormalized x2 h2) :=
    ((rangeNormalized_perm x1 h1 hwf).trans (retained_perm h1 h2 hperm)).trans
      (rangeNormalized_perm x2 h2 hwf2).symm
  refine ⟨setSpanTags_tagStore_order x1 x2 hm hk w events remoteIP h1 h2 hp, ?_,
    headerKey_injective⟩
  rw [setSpanTags_log, setSpanTags_log]
  unfold setEventSpanTags
  rw [hm]
  cases x2.jsonMarshal (eventTag.mk events) with
  | error err => rfl
  | ok event => rfl

/-- Witness of C17: two headers, enumerated in both orders and visited in both orders. -/
theorem setSpanTags_order_independent_witness :
    sampleExternals.jsonMarshal = reversedExternals.jsonMarshal ∧
    sampleExternals.ManualKeep = reversedExternals.ManualKeep ∧
    List.Perm [("host", ["a"]), ("via", ["b"])] [("via", ["b"]), ("host", ["a"])] ∧
    mapWF [("host", ["a"]), ("via", ["b"])] ∧
    (setSpanTags tagStore sampleExternals (World.mk emptyStore []) "[]" "1.2.3.4"
      [("host", ["a"]), ("via", ["b"])]).span =
    (setSpanTags tagStore reversedExternals (World.mk emptyStore []) "[]" "1.2.3.4"
      [("via", ["b"]), ("host", ["a"])]).span :=
  ⟨rfl, rfl, List.Perm.swap _ _ _, by decide,
    (setSpanTags_order_independent sampleExternals reversedExternals rfl rfl
      (World.mk emptyStore []) "[]" "1.2.3.4" [("host", ["a"]), ("via", ["b"])]
      [("via", ["b"]), ("host", ["a"])] (List.Perm.swap _ _ _) (by decide)).1⟩

/-- C18: an allow-listed header with an empty value sequence is retained:
`normalizeHTTPHeaders({k: []})` is `{k: ""}` and `setSpanTags` sets
`"http.request.headers." + k` to the empty string; a single value `[v]` gives `v`. -/
theorem normalizeHTTPHeaders_empty_values (k : String)
    (hk : k ∈ collectedHTTPHeadersDecl) :
    normalizeHTTPHeaders [(k, [])] = some [(k, "")] ∧
    (∀ v : String, normalizeHTTPHeaders [(k, [v])] = some [(k, v)]) ∧
    (∀ (x : Externals) (w : World TagStore) (events : json.RawMessage) (remoteIP : String),
      (setSpanTags tagStore x w events remoteIP [(k, [])]).span
        ("http.request.headers." ++ k) = some (TagValue.str "")) ∧
    (∀ (x : Externals) (w : World (List Call)) (events : json.RawMessage)
      (remoteIP : String),
      (setSpanTags recorder x w events remoteIP [(k, [])]).span.getLast? =
        some ("http.request.headers." ++ k, TagValue.str "")) := by
  have hc : isCollected k = true := (isCollected_iff k).2 hk
  have hn : ∀ vs, normalizeHTTPHeaders [(k, vs)] = some [(k, strings.Join vs ",")] := by
    intro vs
    simp [normalizeHTTPHeaders, normalizeStep, hc, mapAssign]
  have hr : ∀ x : Externals, rangeNormalized x [(k, [])] = [(k, "")] := by
    intro x
    unfold rangeNormalized
    rw [hn []]
    exact List.perm_singleton.1 (x.rangeOrder_perm [(k, strings.Join [] ",")])
  refine ⟨hn [], fun v => hn [v], ?_, ?_⟩
  · intro x w events remoteIP
    unfold setSpanTags
    rw [hr x]
    simp [setHeaderTag, tagStore]
  · intro x w events remoteIP
    rw [setSpanTags_recorder, hr x]
    simp [headerCall]

/-- Witness of C18: the header `host` without a value. -/
theorem normalizeHTTPHeaders_empty_values_witness :
    "host" ∈ collectedHTTPHeadersDecl ∧
    normalizeHTTPHeaders [("host", [])] = some [("host", "")] ∧
    normalizeHTTPHeaders [("host", ["v"])] = some [("host", "v")] :=
  ⟨by decide, (normalizeHTTPHeaders_empty_values "host" (by decide)).1,
    (normalizeHTTPHeaders_empty_values "host" (by decide)).2.1 "v"⟩

/-- C19: `setSpanTags` is idempotent on the tag store: with the same events, remote IP
and headers, and a serializer that is a function of the events, a second call leaves the
tag store of the first call, whatever the order in which each call visits the map. -/
theorem setSpanTags_idempotent (x1 x2 : Externals)
    (hm : x1.jsonMarshal = x2.jsonMarshal) (hk : x1.ManualKeep = x2.ManualKeep)
    (w : World TagStore) (events : json.RawMessage) (remoteIP : String)
    (h : GoMap (List String)) :
    (setSpanTags tagStore x2 (setSpanTags tagStore x1 w events remoteIP h) events
      remoteIP h).span = (setSpanTags tagStore x1 w events remoteIP h).span := by
  rw [← setSpanTags_tagStore_order x1 x2 hm hk _ events remoteIP h h
    (rangeNormalized_perm_same x1 x2 h)]
  rw [setSpanTags_replay, setSpanTags_replay]
  exact replay_tagStore_idem _ _

/-- Witness of C19: two calls, the second visiting the map backwards. -/
theorem setSpanTags_idempotent_witness :
    sampleExternals.jsonMarshal = reversedExternals.jsonMarshal ∧
    sampleExternals.ManualKeep = reversedExternals.ManualKeep ∧
    (setSpanTags tagStore reversedExternals
      (setSpanTags tagStore sampleExternals (World.mk emptyStore []) "[]" "1.2.3.4"
        [("host", ["a"]), ("via", ["b"])]) "[]" "1.2.3.4"
      [("host", ["a"]), ("via", ["b"])]).span =
    (setSpanTags tagStore sampleExternals (World.mk emptyStore []) "[]" "1.2.3.4"
      [("host", ["a"]), ("via", ["b"])]).span :=
  ⟨rfl, rfl, setSpanTags_idempotent sampleExternals reversedExternals rfl rfl
    (World.mk emptyStore []) "[]" "1.2.3.4" [("host", ["a"]), ("via", ["b"])]⟩

/-! ## The scanner and `compact` of `encoding/json` -/

namespace json

theorem error_ok (s s0 : scanner) (c : Char) (context : String) :
    StepOK s0 c (s.error c context) := by
  simp [StepOK, scanner.error, scanner.Inv]

theorem setStep_ok (s : scanner) (c : Char) (f : StepFn) (code : Nat)
    (hf : f ≠ StepFn.stateError) (hcode : code < scanSkipSpace) :
    StepOK s c (setStep s f, code) := by
  refine ⟨fun h => h, fun _ h => ?_, fun h => ?_, fun h => absurd h hf⟩
  · exact absurd hcode (Nat.not_lt.2 h)
  · simp only [scanError, scanSkipSpace] at h hcode
    omega

theorem same_ok (s : scanner) (c : Char) (code : Nat) (hinv : s.Inv)
    (hcode : code < scanSkipSpace) : StepOK s c (s, code) := by
  refine ⟨fun h => h, fun _ h => ?_, fun h => ?_, hinv⟩
  · exact absurd hcode (Nat.not_lt.2 h)
  · simp only [scanError, scanSkipSpace] at h hcode
    omega

theorem space_ok (s : scanner) (c : Char) (hinv : s.Inv) (hc : isSpace c = true) :
    StepOK s c (s, scanSkipSpace) := by
  refine ⟨fun h => h, fun h _ => ?_, fun h => ?_, hinv⟩
  · rw [hc] at h
    exact Bool.noConfusion h
  · simp [scanError, scanSkipSpace] at h

/-- The result of a state function called on a scanner with the same error field. -/
theorem StepOK_of_err (s s1 : scanner) (c : Char) (r : scanner × Nat)
    (herr : s1.err = s.err) (h : StepOK s1 c r) : StepOK s c r := by
  refine ⟨fun hs => h.1 (herr ▸ hs), h.2.1, h.2.2.1, h.2.2.2⟩

theorem stateEndTop_ok (s : scanner) (c : Char) (hinv : s.Inv) :
    StepOK s c (stateEndTop s c) := by
  unfold stateEndTop
  cases hc : isSpace c
  · simp [StepOK, scanner.error, scanner.Inv]
  · simp only [Bool.not_true, Bool.false_eq_true, if_false]
    refine ⟨fun h => h, fun h _ => ?_, fun h => ?_, hinv⟩
    · rw [hc] at h
      exact Bool.noConfusion h
    · simp [scanError, scanEnd] at h

theorem pushParseState_ok (s : scanner) (c : Char) (p : ParseState) (code : Nat)
    (hf : s.step ≠ StepFn.stateError) (hcode : code < scanSkipSpace) :
    StepOK s c (s.pushParseState c p code) := by
  unfold scanner.pushParseState
  simp only []
  split
  · refine ⟨fun h => h, fun _ h => ?_, fun h => ?_, fun h => absurd h hf⟩
    · exact absurd hcode (Nat.not_lt.2 h)
    · simp only [scanError, scanSkipSpace] at h hcode
      omega
  · exact error_ok _ _ _ _

theorem popParseState_ok (s : scanner) (c : Char) (code : Nat)
    (hcode : code < scanSkipSpace) : StepOK s c (s.popParseState, code) := by
  unfold scanner.popParseState
  simp only []
  split
  · refine ⟨fun h => h, fun _ h => ?_, fun h => ?_, by simp [scanner.Inv, setStep]⟩
    · exact absurd hcode (Nat.not_lt.2 h)
    · simp only [scanError, scanSkipSpace] at h hcode
      omega
  · refine ⟨fun h => h, fun _ h => ?_, fun h => ?_, by simp [scanner.Inv, setStep]⟩
    · exact absurd hcode (Nat.not_lt.2 h)
    · simp only [scanError, scanSkipSpace] at h hcode
      omega

theorem stateEndValue_ok (s : scanner) (c : Char) : StepOK s c (stateEndValue s c) := by
  unfold stateEndValue
  split
  · exact StepOK_of_err s (scanner.mk StepFn.stateEndTop true [] s.err) c _ rfl
      (stateEndTop_ok _ c (by simp [scanner.Inv]))
  · rename_i ps rest hps
    cases hc : isSpace c
    · simp only [Bool.false_eq_true, if_false]
      cases ps
      · simp only []
        split
        · refine ⟨fun h => h, fun _ h => ?_, fun h => ?_, by simp [scanner.Inv, setStep]⟩
          · simp [scanSkipSpace, scanObjectKey] at h
          · simp [scanError, scanObjectKey] at h
        · exact error_ok _ _ _ _
      · simp only []
        split
        · refine ⟨fun h => h, fun _ h => ?_, fun h => ?_, by simp [scanner.Inv, setStep]⟩
          · simp [scanSkipSpace, scanObjectValue] at h
          · simp [scanError, scanObjectValue] at h
        · split
          · exact popParseState_ok s c _ (by decide)
          · exact error_ok _ _ _ _
      · simp only []
        split
        · exact setStep_ok s c _ _ (by decide) (by decide)
        · split
          · exact popParseState_ok s c _ (by decide)
          · exact error_ok _ _ _ _
    · simp only [if_true]
      refine ⟨fun h => h, fun h _ => ?_, fun h => ?_, by simp [scanner.Inv, setStep]⟩
      · rw [hc] at h
        exact Bool.noConfusion h
      · simp [scanError, scanSkipSpace] at h

theorem stateBeginValue_ok (s : scanner) (c : Char) (hinv : s.Inv) :
    StepOK s c (stateBeginValue s c) := by
  unfold stateBeginValue
  cases hc : isSpace c
  · simp only [Bool.false_eq_true, if_false]
    split_ifs
    · exact StepOK_of_err s (setStep s StepFn.stateBeginStringOrEmpty) c _ rfl
        (pushParseState_ok _ c _ _ (by simp [setStep]) (by decide))
    · exact StepOK_of_err s (setStep s StepFn.stateBeginValueOrEmpty) c _ rfl
        (pushParseState_ok _ c _ _ (by simp [setStep]) (by decide))
    · exact setStep_ok s c _ _ (by decide) (by decide)
    · exact setStep_ok s c _ _ (by decide) (by decide)
    · exact setStep_ok s c _ _ (by decide) (by decide)
    · exact setStep_ok s c _ _ (by decide) (by decide)
    · exact setStep_ok s c _ _ (by decide) (by decide)
    · exact setStep_ok s c _ _ (by decide) (by decide)
    · exact setStep_ok s c _ _ (by decide) (by decide)
    · exact error_ok _ _ _ _
  · simp only [if_true]
    exact space_ok s c hinv hc

theorem stateBeginValueOrEmpty_ok (s : scanner) (c : Char) (hinv : s.Inv) :
    StepOK s c (stateBeginValueOrEmpty s c) := by
  unfold stateBeginValueOrEmpty
  cases hc : isSpace c
  · simp only [Bool.false_eq_true, if_false]
    split_ifs
    · exact stateEndValue_ok s c
    · exact stateBeginValue_ok s c hinv
  · simp only [if_true]
    exact space_ok s c hinv hc

theorem stateBeginString_ok (s : scanner) (c : Char) (hinv : s.Inv) :
    StepOK s c (stateBeginString s c) := by
  unfold stateBeginString
  cases hc : isSpace c
  · simp only [Bool.false_eq_true, if_false]
    split_ifs
    · exact setStep_ok s c _ _ (by decide) (by decide)
    · exact error_ok _ _ _ _
  · simp only [if_true]
    exact space_ok s c hinv hc

theorem stateBeginStringOrEmpty_ok (s : scanner) (c : Char) (hinv : s.Inv) :
    StepOK s c (stateBeginStringOrEmpty s c) := by
  unfold stateBeginStringOrEmpty
  cases hc : isSpace c
  · simp only [Bool.false_eq_true, if_false]
    split_ifs
    · exact StepOK_of_err s (scanner.mk s.step s.endTop
        (ParseState.parseObjectValue :: s.parseState.tail) s.err) c _ rfl
        (stateEndValue_ok _ c)
    · exact stateBeginString_ok s c hinv
  · simp only [if_true]
    exact space_ok s c hinv hc

theorem stateInString_ok (s : scanner) (c : Char) (hinv : s.Inv) :
    StepOK s c (stateInString s c) := by
  unfold stateInString
  split_ifs
  · exact setStep_ok s c _ _ (by decide) (by decide)
  · exact setStep_ok s c _ _ (by decide) (by decide)
  · exact error_ok _ _ _ _
  · exact same_ok s c _ hinv (by decide)

theorem stateInStringEsc_ok (s : scanner) (c : Char) :
    StepOK s c (stateInStringEsc s c) := by
  unfold stateInStringEsc
  split_ifs
  · exact setStep_ok s c _ _ (by decide) (by decide)
  · exact setStep_ok s c _ _ (by decide) (by decide)
  · exact error_ok _ _ _ _

theorem stateInStringEscHex_ok (next : StepFn) (hnext : next ≠ StepFn.stateError)
    (s : scanner) (c : Char) : StepOK s c (stateInStringEscHex next s c) := by
  unfold stateInStringEscHex
  split_ifs
  · exact setStep_ok s c _ _ hnext (by decide)
  · exact error_ok _ _ _ _

theorem stateNeg_ok (s : scanner) (c : Char) : StepOK s c (stateNeg s c) := by
  unfold stateNeg
  split_ifs
  · exact setStep_ok s c _ _ (by decide) (by decide)
  · exact setStep_ok s c _ _ (by decide) (by decide)
  · exact error_ok _ _ _ _

theorem state0_ok (s : scanner) (c : Char) : StepOK s c (state0 s c) := by
  unfold state0
  split_ifs
  · exact setStep_ok s c _ _ (by decide) (by decide)
  · exact setStep_ok s c _ _ (by decide) (by decide)
  · exact stateEndValue_ok s c

theorem state1_ok (s : scanner) (c : Char) : StepOK s c (state1 s c) := by
  unfold state1
  split_ifs
  · exact setStep_ok s c _ _ (by decide) (by decide)
  · exact state0_ok s c

theorem stateDot_ok (s : scanner) (c : Char) : StepOK s c (stateDot s c) := by
  unfold stateDot
  split_ifs
  · exact setStep_ok s c _ _ (by decide) (by decide)
  · exact error_ok _ _ _ _

theorem stateDot0_ok (s : scanner) (c : Char) (hinv : s.Inv) :
    StepOK s c (stateDot0 s c) := by
  unfold stateDot0
  split_ifs
  · exact same_ok s c _ hinv (by decide)
  · exact setStep_ok s c _ _ (by decide) (by decide)
  · exact stateEndValue_ok s c

theorem stateESign_ok (s : scanner) (c : Char) : StepOK s c (stateESign s c) := by
  unfold stateESign
  split_ifs
  · exact setStep_ok s c _ _ (by decide) (by decide)
  · exact error_ok _ _ _ _

theorem stateE_ok (s : scanner) (c : Char) : StepOK s c (stateE s c) := by
  unfold stateE
  split_ifs
  · exact setStep_ok s c _ _ (by decide) (by decide)
  · exact stateESign_ok s c

theorem stateE0_ok (s : scanner) (c : Char) (hinv : s.Inv) :
    StepOK s c (stateE0 s c) := by
  unfold stateE0
  split_ifs
  · exact same_ok s c _ hinv (by decide)
  · exact stateEndValue_ok s c

theorem stateLiteral_ok (want : Char) (next : StepFn) (context : String)
    (hnext : next ≠ StepFn.stateError) (s : scanner) (c : Char) :
    StepOK s c (stateLiteral want next context s c) := by
  unfold stateLiteral
  split_ifs
  · exact setStep_ok s c _ _ hnext (by decide)
  · exact error_ok _ _ _ _

/-- Every call `s.step(s, c)` on a scanner that satisfies the invariant. -/
theorem run_ok (s : scanner) (c : Char) (hinv : s.Inv) : StepOK s c (s.run c) := by
  unfold scanner.run
  split
  · exact stateBeginValueOrEmpty_ok s c hinv
  · exact stateBeginValue_ok s c hinv
  · exact stateBeginStringOrEmpty_ok s c hinv
  · exact stateBeginString_ok s c hinv
  · exact stateEndValue_ok s c
  · exact stateEndTop_ok s c hinv
  · exact stateInString_ok s c hinv
  · exact stateInStringEsc_ok s c
  · exact stateInStringEscHex_ok _ (by decide) s c
  · exact stateInStringEscHex_ok _ (by decide) s c
  · exact stateInStringEscHex_ok _ (by decide) s c
  · exact stateInStringEscHex_ok _ (by decide) s c
  · exact stateNeg_ok s c
  · exact state1_ok s c
  · exact state0_ok s c
  · exact stateDot_ok s c
  · exact stateDot0_ok s c hinv
  · exact stateE_ok s c
  · exact stateESign_ok s c
  · exact stateE0_ok s c hinv
  · exact stateLiteral_ok _ _ _ (by decide) s c
  · exact stateLiteral_ok _ _ _ (by decide) s c
  · exact stateLiteral_ok _ _ _ (by decide) s c
  · exact stateLiteral_ok _ _ _ (by decide) s c
  · exact stateLiteral_ok _ _ _ (by decide) s c
  · exact stateLiteral_ok _ _ _ (by decide) s c
  · exact stateLiteral_ok _ _ _ (by decide) s c
  · exact stateLiteral_ok _ _ _ (by decide) s c
  · exact stateLiteral_ok _ _ _ (by decide) s c
  · exact stateLiteral_ok _ _ _ (by decide) s c
  · rename_i hs
    have herr := hinv hs
    exact ⟨fun h => h, fun _ _ => herr, fun _ => herr, hinv⟩

end json

namespace json

theorem mode_error (m : StringMode) (s : scanner) (c : Char) (context : String) :
    ModeOK m c (s.error c context) := by
  intro h
  simp [scanner.error] at h

theorem mode_set (m : StringMode) (s : scanner) (c : Char) (f : StepFn) (code : Nat)
    (hf : stepMode f = m.next c) (hcode : code < scanSkipSpace)
    (hns : ¬ (m = StringMode.outside ∧ isSpace c = true)) :
    ModeOK m c (setStep s f, code) := by
  intro _
  refine ⟨hf, ?_⟩
  constructor
  · intro h
    exact absurd hcode (Nat.not_lt.2 h)
  · intro h
    exact absurd h hns

theorem mode_same (m : StringMode) (s : scanner) (c : Char) (code : Nat)
    (hf : stepMode s.step = m.next c) (hcode : code < scanSkipSpace)
    (hns : ¬ (m = StringMode.outside ∧ isSpace c = true)) :
    ModeOK m c (s, code) := by
  intro _
  refine ⟨hf, ?_⟩
  constructor
  · intro h
    exact absurd hcode (Nat.not_lt.2 h)
  · intro h
    exact absurd h hns

theorem isSpace_ne_quote (c : Char) (hc : isSpace c = true) : c ≠ '"' := by
  intro h
  subst h
  simp [isSpace] at hc

theorem next_outside (c : Char) (hq : c ≠ '"') :
    StringMode.next StringMode.outside c = StringMode.outside := by
  simp [StringMode.next, hq]

theorem mode_skip (s : scanner) (c : Char) (code : Nat)
    (hf : stepMode s.step = StringMode.outside) (hcode : scanSkipSpace ≤ code)
    (hc : isSpace c = true) : ModeOK StringMode.outside c (s, code) := by
  intro _
  rw [next_outside c (isSpace_ne_quote c hc)]
  exact ⟨hf, fun _ => ⟨rfl, hc⟩, fun _ => hcode⟩

theorem not_outside_space (c : Char) (hc : isSpace c = false) :
    ¬ (StringMode.outside = StringMode.outside ∧ isSpace c = true) := by
  simp [hc]

theorem stateEndTop_mode (s : scanner) (c : Char)
    (hm : stepMode s.step = StringMode.outside) :
    ModeOK StringMode.outside c (stateEndTop s c) := by
  unfold stateEndTop
  cases hc : isSpace c
  · simp only [Bool.not_false, if_true]
    intro h
    simp [scanner.error] at h
  · simp only [Bool.not_true, Bool.false_eq_true, if_false]
    exact mode_skip s c _ hm (by decide) hc

theorem pushParseState_mode (s : scanner) (c : Char) (p : ParseState) (code : Nat)
    (hf : stepMode s.step = StringMode.next StringMode.outside c)
    (hcode : code < scanSkipSpace) (hc : isSpace c = false) :
    ModeOK StringMode.outside c (s.pushParseState c p code) := by
  unfold scanner.pushParseState
  simp only []
  split
  · intro _
    refine ⟨hf, ?_⟩
    constructor
    · intro h
      exact absurd hcode (Nat.not_lt.2 h)
    · intro h
      rw [hc] at h
      exact Bool.noConfusion h.2
  · exact mode_error _ _ _ _

theorem popParseState_mode (s : scanner) (c : Char) (code : Nat) (hq : c ≠ '"')
    (hcode : code < scanSkipSpace) (hc : isSpace c = false) :
    ModeOK StringMode.outside c (s.popParseState, code) := by
  unfold scanner.popParseState
  simp only []
  intro _
  rw [next_outside c hq]
  split
  · refine ⟨rfl, ?_⟩
    constructor
    · intro h
      exact absurd hcode (Nat.not_lt.2 h)
    · intro h
      rw [hc] at h
      exact Bool.noConfusion h.2
  · refine ⟨rfl, ?_⟩
    constructor
    · intro h
      exact absurd hcode (Nat.not_lt.2 h)
    · intro h
      rw [hc] at h
      exact Bool.noConfusion h.2

theorem stateEndValue_mode (s : scanner) (c : Char) :
    ModeOK StringMode.outside c (stateEndValue s c) := by
  unfold stateEndValue
  split
  · exact stateEndTop_mode _ c rfl
  · rename_i ps rest hps
    cases hc : isSpace c
    · simp only [Bool.false_eq_true, if_false]
      have hns := not_outside_space c hc
      cases ps
      · simp only []
        split
        · rename_i h
          subst h
          intro _
          exact ⟨rfl, by simp only []; decide⟩
        · exact mode_error _ _ _ _
      · simp only []
        split
        · rename_i h
          subst h
          intro _
          exact ⟨rfl, by simp only []; decide⟩
        · split
          · rename_i h
            exact popParseState_mode s c _ (by rw [h]; decide) (by decide) hc
          · exact mode_error _ _ _ _
      · simp only []
        split
        · rename_i h
          exact mode_set _ s c _ _ (by rw [h]; rfl) (by decide) hns
        · split
          · rename_i h
            exact popParseState_mode s c _ (by rw [h]; decide) (by decide) hc
          · exact mode_error _ _ _ _
    · simp only [if_true]
      exact mode_skip (setStep s StepFn.stateEndValue) c _ rfl (by decide) hc

/-- A character accepted by a test that rejects the double quote and the spaces. -/
theorem facts_of (p : Char → Bool) (hq : p '"' = false) (h1 : p ' ' = false)
    (h2 : p '\t' = false) (h3 : p '\r' = false) (h4 : p '\n' = false) (c : Char)
    (hp : p c = true) : c ≠ '"' ∧ isSpace c = false := by
  constructor
  · intro h
    subst h
    rw [hq] at hp
    exact Bool.noConfusion hp
  · cases hc : isSpace c with
    | false => rfl
    | true =>
      exfalso
      simp only [isSpace, Bool.or_eq_true, beq_iff_eq] at hc
      rcases hc with ((rfl | rfl) | rfl) | rfl
      · rw [h1] at hp; exact Bool.noConfusion hp
      · rw [h2] at hp; exact Bool.noConfusion hp
      · rw [h3] at hp; exact Bool.noConfusion hp
      · rw [h4] at hp; exact Bool.noConfusion hp

theorem mode_set_out (s : scanner) (c : Char) (f : StepFn) (code : Nat)
    (hf : stepMode f = StringMode.outside) (hcode : code < scanSkipSpace)
    (hfacts : c ≠ '"' ∧ isSpace c = false) :
    ModeOK StringMode.outside c (setStep s f, code) :=
  mode_set _ s c f code (by rw [next_outside c hfacts.1]; exact hf) hcode
    (not_outside_space c hfacts.2)

theorem mode_same_out (s : scanner) (c : Char) (code : Nat)
    (hm : stepMode s.step = StringMode.outside) (hcode : code < scanSkipSpace)
    (hfacts : c ≠ '"' ∧ isSpace c = false) :
    ModeOK StringMode.outside c (s, code) :=
  mode_same _ s c code (by rw [next_outside c hfacts.1]; exact hm) hcode
    (not_outside_space c hfacts.2)

theorem mode_set_quote (s : scanner) (f : StepFn) (code : Nat)
    (hf : stepMode f = StringMode.inside) (hcode : code < scanSkipSpace) :
    ModeOK StringMode.outside '"' (setStep s f, code) :=
  mode_set _ s '"' f code hf hcode (by decide)

theorem stateBeginValue_mode (s : scanner) (c : Char)
    (hm : stepMode s.step = StringMode.outside) :
    ModeOK StringMode.outside c (stateBeginValue s c) := by
  unfold stateBeginValue
  cases hc : isSpace c
  · simp only [Bool.false_eq_true, if_false]
    split_ifs with h1 h2 h3 h4 h5 h6 h7 h8 h9
    · exact pushParseState_mode _ c _ _ (by rw [h1]; rfl) (by decide) hc
    · exact pushParseState_mode _ c _ _ (by rw [h2]; rfl) (by decide) hc
    · rw [h3]
      exact mode_set_quote s _ _ rfl (by decide)
    · exact mode_set_out s c _ _ rfl (by decide) ⟨h3, hc⟩
    · exact mode_set_out s c _ _ rfl (by decide) ⟨h3, hc⟩
    · exact mode_set_out s c _ _ rfl (by decide) ⟨h3, hc⟩
    · exact mode_set_out s c _ _ rfl (by decide) ⟨h3, hc⟩
    · exact mode_set_out s c _ _ rfl (by decide) ⟨h3, hc⟩
    · exact mode_set_out s c _ _ rfl (by decide) ⟨h3, hc⟩
    · exact mode_error _ _ _ _
  · simp only [if_true]
    exact mode_skip s c _ hm (by decide) hc

theorem stateBeginValueOrEmpty_mode (s : scanner) (c : Char)
    (hm : stepMode s.step = StringMode.outside) :
    ModeOK StringMode.outside c (stateBeginValueOrEmpty s c) := by
  unfold stateBeginValueOrEmpty
  cases hc : isSpace c
  · simp only [Bool.false_eq_true, if_false]
    split_ifs
    · exact stateEndValue_mode s c
    · exact stateBeginValue_mode s c hm
  · simp only [if_true]
    exact mode_skip s c _ hm (by decide) hc

theorem stateBeginString_mode (s : scanner) (c : Char)
    (hm : stepMode s.step = StringMode.outside) :
    ModeOK StringMode.outside c (stateBeginString s c) := by
  unfold stateBeginString
  cases hc : isSpace c
  · simp only [Bool.false_eq_true, if_false]
    split_ifs with h1
    · rw [h1]
      exact mode_set_quote s _ _ rfl (by decide)
    · exact mode_error _ _ _ _
  · simp only [if_true]
    exact mode_skip s c _ hm (by decide) hc

theorem stateBeginStringOrEmpty_mode (s : scanner) (c : Char)
    (hm : stepMode s.step = StringMode.outside) :
    ModeOK StringMode.outside c (stateBeginStringOrEmpty s c) := by
  unfold stateBeginStringOrEmpty
  cases hc : isSpace c
  · simp only [Bool.false_eq_true, if_false]
    split_ifs
    · exact stateEndValue_mode _ c
    · exact stateBeginString_mode s c hm
  · simp only [if_true]
    exact mode_skip s c _ hm (by decide) hc

theorem stateInString_mode (s : scanner) (c : Char)
    (hm : stepMode s.step = StringMode.inside) :
    ModeOK StringMode.inside c (stateInString s c) := by
  unfold stateInString
  split_ifs with h1 h2 h3
  · exact mode_set _ s c _ _ (by rw [h1]; rfl) (by decide) (by simp)
  · exact mode_set _ s c _ _ (by rw [h2]; rfl) (by decide) (by simp)
  · exact mode_error _ _ _ _
  · exact mode_same _ s c _ (by simp [StringMode.next, h1, h2, hm]) (by decide) (by simp)

theorem stateInStringEsc_mode (s : scanner) (c : Char) :
    ModeOK StringMode.escaped c (stateInStringEsc s c) := by
  unfold stateInStringEsc
  split_ifs
  · exact mode_set _ s c _ _ rfl (by decide) (by simp)
  · exact mode_set _ s c _ _ rfl (by decide) (by simp)
  · exact mode_error _ _ _ _

theorem stateInStringEscHex_mode (next : StepFn) (hnext : stepMode next = StringMode.inside)
    (s : scanner) (c : Char) : ModeOK StringMode.inside c (stateInStringEscHex next s c) := by
  unfold stateInStringEscHex
  split_ifs with h1
  · have hq : c ≠ '"' := by
      intro h
      subst h
      exact absurd h1 (by decide)
    have hb : c ≠ '\\' := by
      intro h
      subst h
      exact absurd h1 (by decide)
    exact mode_set _ s c _ _ (by simp [StringMode.next, hq, hb, hnext]) (by decide) (by simp)
  · exact mode_error _ _ _ _

theorem isDigit_facts (c : Char) (h : isDigit c = true) : c ≠ '"' ∧ isSpace c = false :=
  facts_of isDigit (by decide) (by decide) (by decide) (by decide) (by decide) c h

theorem stateNeg_mode (s : scanner) (c : Char) :
    ModeOK StringMode.outside c (stateNeg s c) := by
  unfold stateNeg
  split_ifs with h1 h2
  · exact mode_set_out s c _ _ rfl (by decide) (by rw [h1]; decide)
  · exact mode_set_out s c _ _ rfl (by decide)
      (facts_of (fun d => decide ('1' ≤ d) && decide (d ≤ '9')) (by decide) (by decide)
        (by decide) (by decide) (by decide) c h2)
  · exact mode_error _ _ _ _

theorem state0_mode (s : scanner) (c : Char) :
    ModeOK StringMode.outside c (state0 s c) := by
  unfold state0
  split_ifs with h1 h2
  · exact mode_set_out s c _ _ rfl (by decide) (by rw [h1]; decide)
  · exact mode_set_out s c _ _ rfl (by decide)
      (facts_of (fun d => decide (d = 'e' ∨ d = 'E')) (by decide) (by decide)
        (by decide) (by decide) (by decide) c (decide_eq_true h2))
  · exact stateEndValue_mode s c

theorem state1_mode (s : scanner) (c : Char) :
    ModeOK StringMode.outside c (state1 s c) := by
  unfold state1
  split_ifs with h1
  · exact mode_set_out s c _ _ rfl (by decide) (isDigit_facts c h1)
  · exact state0_mode s c

theorem stateDot_mode (s : scanner) (c : Char) :
    ModeOK StringMode.outside c (stateDot s c) := by
  unfold stateDot
  split_ifs with h1
  · exact mode_set_out s c _ _ rfl (by decide) (isDigit_facts c h1)
  · exact mode_error _ _ _ _

theorem stateDot0_mode (s : scanner) (c : Char)
    (hm : stepMode s.step = StringMode.outside) :
    ModeOK StringMode.outside c (stateDot0 s c) := by
  unfold stateDot0
  split_ifs with h1 h2
  · exact mode_same_out s c _ hm (by decide) (isDigit_facts c h1)
  · exact mode_set_out s c _ _ rfl (by decide)
      (facts_of (fun d => decide (d = 'e' ∨ d = 'E')) (by decide) (by decide)
        (by decide) (by decide) (by decide) c (decide_eq_true h2))
  · exact stateEndValue_mode s c

theorem stateESign_mode (s : scanner) (c : Char) :
    ModeOK StringMode.outside c (stateESign s c) := by
  unfold stateESign
  split_ifs with h1
  · exact mode_set_out s c _ _ rfl (by decide) (isDigit_facts c h1)
  · exact mode_error _ _ _ _

theorem stateE_mode (s : scanner) (c : Char) :
    ModeOK StringMode.outside c (stateE s c) := by
  unfold stateE
  split_ifs with h1
  · exact mode_set_out s c _ _ rfl (by decide)
      (facts_of (fun d => decide (d = '+' ∨ d = '-')) (by decide) (by decide)
        (by decide) (by decide) (by decide) c (decide_eq_true h1))
  · exact stateESign_mode s c

theorem stateE0_mode (s : scanner) (c : Char)
    (hm : stepMode s.step = StringMode.outside) :
    ModeOK StringMode.outside c (stateE0 s c) := by
  unfold stateE0
  split_ifs with h1
  · exact mode_same_out s c _ hm (by decide) (isDigit_facts c h1)
  · exact stateEndValue_mode s c

theorem stateLiteral_mode (want : Char) (next : StepFn) (context : String)
    (hnext : stepMode next = StringMode.outside)
    (hwant : want ≠ '"' ∧ isSpace want = false) (s : scanner) (c : Char) :
    ModeOK StringMode.outside c (stateLiteral want next context s c) := by
  unfold stateLiteral
  split_ifs with h1
  · exact mode_set_out s c _ _ hnext (by decide) (by rw [h1]; exact hwant)
  · exact mode_error _ _ _ _

/-- Every call `s.step(s, c)` that leaves no error follows the position in the text. -/
theorem run_mode (s : scanner) (c : Char) (hinv : s.Inv) :
    ModeOK (stepMode s.step) c (s.run c) := by
  unfold scanner.run
  split <;> rename_i hs <;> rw [hs]
  · exact stateBeginValueOrEmpty_mode s c (by rw [hs]; rfl)
  · exact stateBeginValue_mode s c (by rw [hs]; rfl)
  · exact stateBeginStringOrEmpty_mode s c (by rw [hs]; rfl)
  · exact stateBeginString_mode s c (by rw [hs]; rfl)
  · exact stateEndValue_mode s c
  · exact stateEndTop_mode s c (by rw [hs]; rfl)
  · exact stateInString_mode s c (by rw [hs]; rfl)
  · exact stateInStringEsc_mode s c
  · exact stateInStringEscHex_mode _ (by rfl) s c
  · exact stateInStringEscHex_mode _ (by rfl) s c
  · exact stateInStringEscHex_mode _ (by rfl) s c
  · exact stateInStringEscHex_mode _ (by rfl) s c
  · exact stateNeg_mode s c
  · exact state1_mode s c
  · exact state0_mode s c
  · exact stateDot_mode s c
  · exact stateDot0_mode s c (by rw [hs]; rfl)
  · exact stateE_mode s c
  · exact stateESign_mode s c
  · exact stateE0_mode s c (by rw [hs]; rfl)
  · exact stateLiteral_mode _ _ _ (by rfl) (by decide) s c
  · exact stateLiteral_mode _ _ _ (by rfl) (by decide) s c
  · exact stateLiteral_mode _ _ _ (by rfl) (by decide) s c
  · exact stateLiteral_mode _ _ _ (by rfl) (by decide) s c
  · exact stateLiteral_mode _ _ _ (by rfl) (by decide) s c
  · exact stateLiteral_mode _ _ _ (by rfl) (by decide) s c
  · exact stateLiteral_mode _ _ _ (by rfl) (by decide) s c
  · exact stateLiteral_mode _ _ _ (by rfl) (by decide) s c
  · exact stateLiteral_mode _ _ _ (by rfl) (by decide) s c
  · exact stateLiteral_mode _ _ _ (by rfl) (by decide) s c
  · intro herr
    have := hinv hs
    simp only [] at herr
    rw [this] at herr
    exact Bool.noConfusion herr

end json

namespace json

theorem compactLoop_scanner (src : List Char) :
    ∀ (s : scanner) (dst : List Char), (compactLoop s src dst).1 = checkValidLoop s src := by
  induction src with
  | nil => intro s dst; rfl
  | cons c src ih =>
    intro s dst
    unfold compactLoop checkValidLoop
    simp only []
    by_cases h9 : scanSkipSpace ≤ (s.run c).2
    · by_cases h11 : (s.run c).2 = scanError
      · have hle : scanSkipSpace ≤ scanError := by decide
        simp only [h11, hle, if_true]
      · simp only [h9, h11, if_true, if_false]
        exact ih _ _
    · have h11 : ¬ (s.run c).2 = scanError := by
        intro h
        rw [h] at h9
        exact h9 (by decide)
      simp only [h9, h11, if_false]
      exact ih _ _

theorem checkValidLoop_err (src : List Char) :
    ∀ s : scanner, s.Inv → s.err.isSome = true → (checkValidLoop s src).err.isSome = true := by
  induction src with
  | nil => intro s _ h; exact h
  | cons c src ih =>
    intro s hinv h
    have hok := run_ok s c hinv
    unfold checkValidLoop
    split
    · exact hok.1 h
    · exact ih _ hok.2.2.2 (hok.1 h)

theorem isSpace_htmlEscape (c : Char) (hc : isSpace c = true) : htmlEscape c = none := by
  simp only [isSpace, Bool.or_eq_true, beq_iff_eq] at hc
  rcases hc with ((rfl | rfl) | rfl) | rfl <;> decide

theorem compactForm_cons (m : StringMode) (c : Char) (src : List Char) :
    compactForm m (c :: src) =
      (if m = StringMode.outside ∧ isSpace c = true then []
       else
        match htmlEscape c with
        | some e => e
        | none => [c]) ++ compactForm (m.next c) src :=
  rfl

/-- The output of the loop of `compact` when no error is met is the compact form of the
source read from the position of the scanner. -/
theorem compactLoop_form (src : List Char) :
    ∀ (s : scanner) (dst : List Char), s.Inv →
      (compactLoop s src dst).1.err.isSome = false →
      (compactLoop s src dst).2 = dst ++ compactForm (stepMode s.step) src := by
  induction src with
  | nil =>
    intro s dst _ _
    simp [compactLoop, compactForm]
  | cons c src ih =>
    intro s dst hinv hfin
    have hok := run_ok s c hinv
    have hmode := run_mode s c hinv
    unfold compactLoop at hfin ⊢
    simp only [] at hfin ⊢
    by_cases h11 : (s.run c).2 = scanError
    · have hle : scanSkipSpace ≤ scanError := by decide
      simp only [h11, hle, if_true] at hfin
      rw [hok.2.2.1 h11] at hfin
      exact Bool.noConfusion hfin
    · have hrun : (s.run c).1.err.isSome = false := by
        cases herr : (s.run c).1.err.isSome with
        | false => rfl
        | true =>
          exfalso
          by_cases h9 : scanSkipSpace ≤ (s.run c).2
          · simp only [h9, h11, if_true, if_false] at hfin
            rw [compactLoop_scanner, checkValidLoop_err src _ hok.2.2.2 herr] at hfin
            exact Bool.noConfusion hfin
          · simp only [h9, if_false] at hfin
            rw [compactLoop_scanner, checkValidLoop_err src _ hok.2.2.2 herr] at hfin
            exact Bool.noConfusion hfin
      obtain ⟨hstep, hiff⟩ := hmode hrun
      by_cases h9 : scanSkipSpace ≤ (s.run c).2
      · have hsp := hiff.1 h9
        have hesc := isSpace_htmlEscape c hsp.2
        simp only [h9, h11, if_true, if_false, hesc] at hfin ⊢
        rw [ih _ dst hok.2.2.2 hfin, hstep, compactForm_cons]
        simp only [hsp, and_self, if_true, List.nil_append]
      · have hns : ¬ (stepMode s.step = StringMode.outside ∧ isSpace c = true) :=
          fun h => h9 (hiff.2 h)
        simp only [h9, if_false] at hfin ⊢
        rw [ih _ _ hok.2.2.2 hfin, hstep, compactForm_cons]
        simp only [hns, if_false]
        cases htmlEscape c with
        | some e => simp
        | none => simp

theorem eof_err (s : scanner) (h : (s.eof).2 ≠ scanError) : s.err.isSome = false := by
  cases herr : s.err.isSome with
  | false => rfl
  | true =>
    exfalso
    apply h
    unfold scanner.eof
    simp [herr]

theorem newScanner_inv : newScanner.Inv := by
  simp [scanner.Inv, newScanner]

/-- A successful `compact` returns the compact form of its source. -/
theorem compact_spec (src text : String) (h : compact src = Except.ok text) :
    text = String.mk (compactForm StringMode.outside src.data) := by
  unfold compact at h
  simp only [] at h
  by_cases he : ((compactLoop newScanner src.data []).1.eof).2 = scanError
  · simp only [he, if_true] at h
    cases h
  · simp only [he, if_false, Except.ok.injEq] at h
    have hform := compactLoop_form src.data newScanner [] newScanner_inv (eof_err _ he)
    rw [List.nil_append] at hform
    rw [← h, hform]
    rfl

/-- The function `compact` succeeds exactly on the texts `json.Valid` accepts. -/
theorem compact_ok_iff_valid (src : String) :
    (∃ text, compact src = Except.ok text) ↔ Valid src = true := by
  unfold compact Valid
  simp only [compactLoop_scanner]
  by_cases he : ((checkValidLoop newScanner src.data).eof).2 = scanError
  · simp [he]
  · simp [he]

/-- A text without spaces and without escaped characters is its own compact form. -/
theorem compactForm_clean (src : List Char) :
    ∀ m : StringMode, (∀ c, c ∈ src → isSpace c = false ∧ htmlEscape c = none) →
      compactForm m src = src := by
  induction src with
  | nil => intro m _; rfl
  | cons c src ih =>
    intro m hclean
    have hc := hclean c (List.mem_cons_self _ _)
    rw [compactForm_cons, ih _ (fun d hd => hclean d (List.mem_cons_of_mem _ hd))]
    simp [hc.1, hc.2]

end json

namespace json

theorem run_newScanner_open :
    newScanner.run '[' = (insideArrays 1, scanBeginArray) := by
  rfl

theorem run_insideArrays_open (k : Nat) (hk : k + 1 ≤ maxNestingDepth) :
    (insideArrays k).run '[' = (insideArrays (k + 1), scanBeginArray) := by
  simp [insideArrays, scanner.run, stateBeginValueOrEmpty, stateBeginValue, isSpace, setStep,
    scanner.pushParseState, hk, List.replicate_succ]

theorem run_insideArrays_deep :
    ((insideArrays maxNestingDepth).run '[').2 = scanError ∧
    ((insideArrays maxNestingDepth).run '[').1.err.isSome = true := by
  simp [insideArrays, scanner.run, stateBeginValueOrEmpty, stateBeginValue, isSpace, setStep,
    scanner.pushParseState, scanner.error]

theorem checkValidLoop_cons (s : scanner) (c : Char) (data : List Char) :
    checkValidLoop s (c :: data) =
      if (s.run c).2 = scanError then (s.run c).1 else checkValidLoop (s.run c).1 data :=
  rfl

theorem checkValidLoop_open (rest : List Char) :
    ∀ n k, k + n ≤ maxNestingDepth →
      checkValidLoop (insideArrays k) (List.replicate n '[' ++ rest) =
        checkValidLoop (insideArrays (k + n)) rest := by
  intro n
  induction n with
  | zero => intro k _; rfl
  | succ n ih =>
    intro k hk
    rw [List.replicate_succ, List.cons_append, checkValidLoop_cons,
      run_insideArrays_open k (by omega)]
    simp only [scanBeginArray, scanError, Nat.reduceEqDiff, if_false]
    rw [ih (k + 1) (by omega), Nat.add_assoc, Nat.add_comm 1 n]

theorem nestedArrays_data (d : Nat) :
    (nestedArrays (d + 1)).data =
      List.replicate d '[' ++ ('[' :: List.replicate (d + 1) ']') := by
  unfold nestedArrays
  simp only [List.replicate_succ', List.append_assoc, List.singleton_append]

/-- After `maxNestingDepth` opening brackets one more leaves the scanner with an error. -/
theorem checkValidLoop_deep (d : Nat) (hd : d + 1 = maxNestingDepth) (rest : List Char) :
    (checkValidLoop newScanner
      (List.replicate (d + 1) '[' ++ ('[' :: rest))).err.isSome = true := by
  rw [List.replicate_succ, List.cons_append, checkValidLoop_cons, run_newScanner_open]
  simp only [scanBeginArray, scanError, Nat.reduceEqDiff, if_false]
  rw [checkValidLoop_open _ d 1 (by omega), Nat.add_comm 1 d, hd, checkValidLoop_cons]
  simp only [run_insideArrays_deep.1, if_true]
  exact run_insideArrays_deep.2

theorem valid_nestedArrays_succ (d : Nat) (hd : d + 1 = maxNestingDepth) :
    Valid (nestedArrays (d + 1 + 1)) = false := by
  unfold Valid scanner.eof
  rw [nestedArrays_data (d + 1)]
  simp [checkValidLoop_deep d hd]

/-- One array too many: `json.Valid` rejects `maxNestingDepth + 1` nested arrays. -/
theorem valid_nestedArrays_deep : Valid (nestedArrays (maxNestingDepth + 1)) = false :=
  valid_nestedArrays_succ (maxNestingDepth - 1) rfl

theorem marshal_error_of_invalid (payload : String) (h : Valid payload = false) :
    ∃ err, Marshal (eventTag.mk (some payload)) = Except.error err := by
  unfold Marshal RawMessage.MarshalJSON
  simp only []
  cases hc : compact payload with
  | error err => exact ⟨_, rfl⟩
  | ok text =>
    have := (compact_ok_iff_valid payload).1 ⟨text, hc⟩
    rw [h] at this
    exact Bool.noConfusion this

end json

/-- With Go's `json.Marshal`, the calls of `setEventSpanTags` on a valid payload. -/
theorem setEventSpanTags_marshal (x : Externals) (hx : x.jsonMarshal = json.Marshal)
    (calls : List Call) (log : List String) (payload : String)
    (hvalid : json.Valid payload = true) :
    (setEventSpanTags recorder x (World.mk calls log) (some payload)).span =
      calls ++ eventCalls x ("\x7b\"triggers\":" ++
        String.mk (json.compactForm json.StringMode.outside payload.data) ++ "\x7d") := by
  obtain ⟨text, htext⟩ := (json.compact_ok_iff_valid payload).2 hvalid
  have hspec := json.compact_spec payload text htext
  have hm : x.jsonMarshal (eventTag.mk (some payload)) =
      Except.ok ("\x7b\"triggers\":" ++
        String.mk (json.compactForm json.StringMode.outside payload.data) ++ "\x7d") := by
    rw [hx, ← hspec]
    unfold json.Marshal json.RawMessage.MarshalJSON
    simp only [htext]
  rw [setEventSpanTags_recorder]
  unfold eventCallsOf
  simp only [hm]

/-- With Go's `json.Marshal`, `setEventSpanTags` makes no call on a payload that
`json.Valid` rejects. -/
theorem setEventSpanTags_invalid (x : Externals) (hx : x.jsonMarshal = json.Marshal)
    (calls : List Call) (log : List String) (payload : String)
    (hinvalid : json.Valid payload = false) :
    (setEventSpanTags recorder x (World.mk calls log) (some payload)).span = calls := by
  obtain ⟨err, he⟩ := json.marshal_error_of_invalid payload hinvalid
  have hm : x.jsonMarshal (eventTag.mk (some payload)) = Except.error err := by
    rw [hx]
    exact he
  rw [setEventSpanTags_error recorder x _ _ err hm]

/-! ## Claim on the value of `_dd.appsec.json` -/

/-- Counterexample to C11, with Go's `json.Marshal`.  The payload `[1, 2]` is valid JSON
and the tag `_dd.appsec.json` receives the object with `[1,2]`: the space of the payload
is gone, so the payload is not embedded verbatim, and the text has no space after the
colon either.  In the payload `["<>&??"]`, with U+2028 and U+2029 for the two question
marks, each of the five characters is replaced by its escape.  For `maxNestingDepth + 1`
arrays nested in one another, which the JSON grammar allows, serialization fails and no
tag is written. -/
theorem setEventSpanTags_not_verbatim :
    json.Valid "[1, 2]" = true ∧
    (setEventSpanTags recorder goExternals (World.mk [] []) (some "[1, 2]")).span.head? =
      some ("_dd.appsec.json", TagValue.str "\x7b\"triggers\":[1,2]\x7d") ∧
    "\x7b\"triggers\":[1,2]\x7d" ≠ "\x7b\"triggers\": " ++ "[1, 2]" ++ "\x7d" ∧
    "\x7b\"triggers\":[1,2]\x7d" ≠ "\x7b\"triggers\":" ++ "[1, 2]" ++ "\x7d" ∧
    (¬ ∃ pre post : String, "\x7b\"triggers\":[1,2]\x7d" = pre ++ "[1, 2]" ++ post) ∧
    json.Valid "[\"<>&\u2028\u2029\"]" = true ∧
    (setEventSpanTags recorder goExternals (World.mk [] [])
      (some "[\"<>&\u2028\u2029\"]")).span.head? =
      some ("_dd.appsec.json",
        TagValue.str "\x7b\"triggers\":[\"\\u003c\\u003e\\u0026\\u2028\\u2029\"]\x7d") ∧
    (setEventSpanTags recorder goExternals (World.mk [] [])
      (some (json.nestedArrays (json.maxNestingDepth + 1)))).span = [] := by
  refine ⟨by decide, by decide, by decide, by decide, ?_, by decide, by decide, ?_⟩
  · rintro ⟨pre, post, h⟩
    have hmem : ' ' ∈ (pre ++ "[1, 2]" ++ post).data := by
      simp only [String.data_append, List.mem_append]
      exact Or.inl (Or.inr (by decide))
    rw [← h] at hmem
    exact absurd hmem (by decide)
  · exact setEventSpanTags_invalid goExternals rfl [] [] _ json.valid_nestedArrays_deep

/-- C11, amended: for a payload `events` that Go's `json.Valid` accepts (syntactically
valid JSON; nesting deeper than 10000 is rejected), serialization succeeds and the value
written to `_dd.appsec.json` is the object text with the single field `triggers` whose
value is the compact form of `events`: the characters of `events` in order, with the space
characters outside the string literals removed and `<`, `>`, `&`, U+2028 and U+2029
replaced by their escapes, every other character unchanged; a payload without space
characters and without these five characters is embedded verbatim. -/
theorem setEventSpanTags_appsec_json (x : Externals) (hx : x.jsonMarshal = json.Marshal)
    (calls : List Call) (log : List String) (payload : String)
    (hvalid : json.Valid payload = true) :
    (setEventSpanTags recorder x (World.mk calls log) (some payload)).span =
      calls ++ [("_dd.appsec.json", TagValue.str ("\x7b\"triggers\":" ++
          String.mk (json.compactForm json.StringMode.outside payload.data) ++ "\x7d")),
        (x.ManualKeep, TagValue.bool true), ("_dd.origin", TagValue.str "appsec"),
        ("appsec.event", TagValue.bool true)] ∧
    ((∀ c, c ∈ payload.data → json.isSpace c = false ∧ json.htmlEscape c = none) →
      String.mk (json.compactForm json.StringMode.outside payload.data) = payload) := by
  refine ⟨setEventSpanTags_marshal x hx calls log payload hvalid, ?_⟩
  intro hclean
  rw [json.compactForm_clean payload.data _ hclean]

/-- Witness of C11, amended: a payload with a space inside a string literal, which is
kept, and one outside, which is removed. -/
theorem setEventSpanTags_appsec_json_witness :
    goExternals.jsonMarshal = json.Marshal ∧
    json.Valid "[\"a b\", 1]" = true ∧
    String.mk (json.compactForm json.StringMode.outside "[\"a b\", 1]".data) =
      "[\"a b\",1]" ∧
    (setEventSpanTags recorder goExternals (World.mk [] []) (some "[\"a b\", 1]")).span =
      [] ++ [("_dd.appsec.json", TagValue.str ("\x7b\"triggers\":" ++
          String.mk (json.compactForm json.StringMode.outside "[\"a b\", 1]".data) ++
          "\x7d")),
        (goExternals.ManualKeep, TagValue.bool true), ("_dd.origin", TagValue.str "appsec"),
        ("appsec.event", TagValue.bool true)] :=
  ⟨rfl, by decide, by decide,
    (setEventSpanTags_appsec_json goExternals rfl [] [] "[\"a b\", 1]" (by decide)).1⟩

end httpinstr
